import Mathlib

/-!
Verification of the Magic Set Editor streaming reader (`reader.cpp`).

The reader consumes an indentation-delimited, line-oriented text format from a
forward-only stream.  We embed it shallowly: the byte/character stream becomes a
list plus an end-of-file flag (set when a read past the end occurs, mirroring
`wxInputStream::Eof`), the `Reader` object becomes a record, and each member
function becomes a state-passing function.  The `while` loops of the source are
expressed as fuelled iteration together with lemmas showing that the chosen fuel
computes the loop's fixpoint, so every definition is executable.
-/

set_option maxRecDepth 4000

namespace MSE

/-- Lines, keys and values are character sequences (the source uses `wxString`,
a sequence of code points). -/
abbrev Str := List Char

-- ----------------------------------------------------------------- string helpers

/-- Space or tab, the characters that `trim`, blank-line detection and the
space-indentation check care about. -/
def isSpaceTab (c : Char) : Bool := c == ' ' || c == '\t'

/-- Count of leading tab characters, the `indent` computation loop of
`Reader::readLine`. -/
def tabIndent : Str → Nat
  | [] => 0
  | c :: rest => if c = '\t' then tabIndent rest + 1 else 0

/-- `line.find_first_not_of(" \t") == String::npos`: every character of the
line is a space or a tab (in particular the line may be empty). -/
def allSpaceTab (l : Str) : Bool := l.all isSpaceTab

/-- Index of the first occurrence of a character in a list. -/
def findIdx0 (ch : Char) : Str → Option Nat
  | [] => none
  | c :: rest => if c == ch then some 0 else (findIdx0 ch rest).map (· + 1)

/-- `line.find_first_of(ch, start)`: first occurrence at index ≥ `start`. -/
def findFrom (ch : Char) (l : Str) (start : Nat) : Option Nat :=
  (findIdx0 ch (l.drop start)).map (· + start)

/-- Modelled from the spec: the repository's `trim_left` string utility is not
among the provided sources; per the spec it removes leading whitespace. -/
def trim_left (l : Str) : Str := l.dropWhile isSpaceTab

/-- Modelled from the spec: the repository's `trim` string utility is not among
the provided sources; per the spec it removes leading and trailing whitespace. -/
def trim (l : Str) : Str := ((l.dropWhile isSpaceTab).reverse.dropWhile isSpaceTab).reverse

/-- `starts_with(l, p)`: `p` is a prefix of `l`. -/
def starts_with : Str → Str → Bool
  | _, [] => true
  | [], _ :: _ => false
  | c :: l, p :: ps => c == p && starts_with l ps

/-- Modelled from the spec: `canonical_name_form` is defined elsewhere in the
repository (not among the provided sources).  The spec describes it only as
normalization of a key's textual form; beyond the trimming already applied at
its call site we model it as the identity. -/
def canonical_name_form (l : Str) : Str := l

-- ----------------------------------------------------------------- character stream

/-- A forward-only character stream: remaining data plus the eof state that
`wxInputStream` sets once a read past the end has been attempted. -/
structure InStream where
  data : List Char
  eofFlag : Bool
deriving DecidableEq

/-- The character-consuming loop of `read_utf8_line` (with `until_eof = false`):
returns the line's characters, the remaining characters, and whether a read past
the end of the stream occurred.  A `\n` terminates the line; a `\r` consumes a
following `\n` if present and pushes any other character back (`Ungetch`). -/
def readLineRaw : List Char → Str × List Char × Bool
  | [] => ([], [], true)
  | c :: rest =>
    if c = '\n' then ([], rest, false)
    else if c = '\r' then
      match rest with
      | [] => ([], [], true)
      | c2 :: rest2 => if c2 = '\n' then ([], rest2, false) else ([], c2 :: rest2, false)
    else
      let r := readLineRaw rest
      (c :: r.1, r.2.1, r.2.2)

/-- `read_utf8_line`: reads one line.  The UTF-8 decode step is the identity in
the model because the stream already carries characters, so the
invalid-encoding `ParseError` path cannot arise here. -/
def read_utf8_line (s : InStream) : Str × InStream :=
  let r := readLineRaw s.data
  (r.1, ⟨r.2.1, s.eofFlag || r.2.2⟩)

-- ----------------------------------------------------------------- byte stream and BOM

/-- A byte stream for `eat_utf8_bom`, which runs before any line decoding. -/
structure ByteStream where
  data : List Nat
  eofFlag : Bool
deriving DecidableEq

/-- One `GetC` on the byte stream; `wxEOF` is modelled as `-1`. -/
def getB : ByteStream → Int × ByteStream
  | ⟨[], _⟩ => (-1, ⟨[], true⟩)
  | ⟨b :: rest, e⟩ => ((b : Int), ⟨rest, e⟩)

/-- `Ungetch`: push one byte back onto the stream. -/
def ungetB (c : Int) (s : ByteStream) : ByteStream := ⟨c.toNat :: s.data, s.eofFlag⟩

/-- `eat_utf8_bom`: consume a leading EF BB BF byte-order mark; on a mismatch
push back the byte just read (and only that byte) unless it was `EOF`. -/
def eat_utf8_bom (s : ByteStream) : Bool × ByteStream :=
  let r1 := getB s
  if r1.1 = 0xEF then
    let r2 := getB r1.2
    if r2.1 = 0xBB then
      let r3 := getB r2.2
      if r3.1 = 0xBF then (true, r3.2)
      else if r3.1 ≠ -1 then (false, ungetB r3.1 r3.2)
      else (false, r3.2)
    else if r2.1 ≠ -1 then (false, ungetB r2.1 r2.2)
    else (false, r2.2)
  else if r1.1 ≠ -1 then (false, ungetB r1.1 r1.2)
  else (false, r1.2)

-- ----------------------------------------------------------------- line parsing

/-- Warning message of `Reader::readLine` for a key starting with a space. -/
def spaceWarnMsg (key0 : Str) : Str :=
  "key: \x27".data ++ key0 ++ "\x27 starts with a space; only use TABs for indentation!".data

/-- Warning message of `Reader::readLine` for a missing colon. -/
def missingColonMsg : Str := "Missing \x27:\x27 ".data

/-- Eight spaces, the unit of the space-indentation repair. -/
def eightSpaces : Str := List.replicate 8 ' '

/-- The `while (starts_with(key, "        "))` repair loop of `Reader::readLine`:
each step strips 8 leading spaces from the key and counts one more indentation
level.  Each step removes 8 characters, so the key length bounds the iteration
count and is used as structural fuel. -/
def spaceRepair : Nat → Str → Int → Str × Int
  | 0, k, ind => (k, ind)
  | fuel + 1, k, ind =>
    if starts_with k eightSpaces then spaceRepair fuel (k.drop 8) (ind + 1)
    else (k, ind)

/-- Result of parsing one raw line: indentation, key, value, warning messages
raised, and whether the line was blank/comment (in which case the reader leaves
the previous `value` untouched). -/
structure LineParse where
  indent : Int
  key : Str
  value : Str
  warns : List Str
  blank : Bool
deriving DecidableEq

/-- The per-line parsing logic of `Reader::readLine`, after the line text has
been read: indentation count, blank/comment detection, key/value split at the
first colon, space-indentation warning and repair, missing-colon warning, and
the single-space placeholder key for an empty key before a colon. -/
def parseLine (ignore_invalid in_string : Bool) (l : Str) : LineParse :=
  let ind0 := tabIndent l
  if allSpaceTab l = true ∨ l.getD ind0 ' ' = '#' then
    ⟨(ind0 : Int), [], [], [], true⟩
  else
    let pos := findFrom ':' l ind0
    let key0 : Str :=
      match pos with
      | some p => (l.drop ind0).take (p - ind0)
      | none => l.drop ind0
    let sp := ignore_invalid = false ∧ in_string = false ∧ starts_with key0 [' '] = true
    let w1 : List Str := if sp then [spaceWarnMsg key0] else []
    let kr := if sp then spaceRepair key0.length key0 (ind0 : Int) else (key0, (ind0 : Int))
    let key1 := canonical_name_form (trim kr.1)
    let value1 : Str :=
      match pos with
      | some p => trim_left (l.drop (p + 1))
      | none => []
    let w2 : List Str :=
      if pos = none ∧ ignore_invalid = false ∧ in_string = false then [missingColonMsg] else []
    let key2 := if key1 = [] ∧ pos ≠ none then [' '] else key1
    ⟨kr.2, key2, value1, w1 ++ w2, false⟩

-- ----------------------------------------------------------------- the Reader record

/-- The per-key consumption state of the cursor. -/
inductive RState where
  | OUTSIDE
  | ENTERED
  | HANDLED
  | UNHANDLED
deriving DecidableEq

/-- The `Reader` object.  `file_app_version` abstracts the `Version` token as an
integer (the `Version` class is outside the provided sources; per the spec it
is compared numerically).  Warnings are kept as a list of (line reference,
message) pairs rather than one accumulated string. -/
structure Reader where
  input : InStream
  indent : Int
  expected_indent : Int
  state : RState
  ignore_invalid : Bool
  line_number : Nat
  previous_line_number : Nat
  line : Str
  key : Str
  value : Str
  previous_value : Str
  warnings : List (Int × Str)
  file_app_version : Int
deriving DecidableEq

/-- `Reader::warning(msg, line_number_delta, warn_on_previous_line)`. -/
def Reader.warning (s : Reader) (msg : Str) (delta : Int) (prev : Bool) : Reader :=
  { s with warnings :=
      s.warnings ++
        [(((if prev then s.previous_line_number else s.line_number : Nat) : Int) + delta, msg)] }

/-- Modelled from the spec for the default arguments of `Reader::warning` (the
header with the defaults is not among the provided sources): a bare
`warning(msg)` call from a value handler attributes the message to the
previously read line with offset 0. -/
def Reader.warnDefault (s : Reader) (msg : Str) : Reader := Reader.warning s msg 0 true

/-- `Reader::readLine(in_string)`: read one raw line from the stream and parse
it.  The line counter is incremented first, so warnings raised while parsing
refer to the new line. -/
def Reader.readLine (in_string : Bool) (s : Reader) : Reader :=
  let rl := read_utf8_line s.input
  let p := parseLine s.ignore_invalid in_string rl.1
  { s with
      line_number := s.line_number + 1
      input := rl.2
      line := rl.1
      indent := p.indent
      key := p.key
      value := if p.blank = true then s.value else p.value
      warnings := s.warnings ++ p.warns.map (fun m => (((s.line_number + 1 : Nat) : Int), m)) }

/-- Loop fuel: remaining stream characters, plus one pending end-of-stream read
while the eof state is not yet set.  Every `readLine` strictly decreases it
until the eof state is reached. -/
def mu (s : Reader) : Nat := s.input.data.length + (if s.input.eofFlag then 0 else 1)

/-- The `while (key.empty() && !input.Eof()) readLine();` loop shared by
`Reader::moveNext` and the tail of `Reader::getValue`, as fuelled iteration. -/
def skipBlankF : Nat → Reader → Reader
  | 0, s => s
  | n + 1, s =>
    if s.key = [] ∧ s.input.eofFlag = false then skipBlankF n (Reader.readLine false s) else s

/-- The blank-skipping loop at its adequate fuel. -/
def skipBlank (s : Reader) : Reader := skipBlankF (mu s) s

/-- `Reader::moveNext`. -/
def Reader.moveNext (s : Reader) : Reader :=
  let s1 := skipBlank
    { s with previous_line_number := s.line_number, state := RState.HANDLED,
             key := [], indent := -1 }
  if s1.key = [] ∧ s1.input.eofFlag = true then
    { s1 with line_number := s1.line_number + 1, indent := -1 }
  else s1

/-- The `while (indent > expected_indent) moveNext();` loop of
`Reader::exitBlock` and `Reader::unknownKey`, as fuelled iteration. -/
def skipDeeperF : Nat → Reader → Reader
  | 0, s => s
  | n + 1, s =>
    if s.expected_indent < s.indent then skipDeeperF n (Reader.moveNext s) else s

/-- The deeper-line-skipping loop at its adequate fuel (one extra step covers
the end-of-stream case, where a final `moveNext` sets the indent sentinel). -/
def skipDeeper (s : Reader) : Reader := skipDeeperF (mu s + 2) s

/-- `Reader::enterAnyBlock`. -/
def Reader.enterAnyBlock (s : Reader) : Bool × Reader :=
  let s1 := if s.state = RState.ENTERED then Reader.moveNext s else s
  if s1.indent ≠ s1.expected_indent then (false, s1)
  else (true, { s1 with state := RState.ENTERED, expected_indent := s1.expected_indent + 1 })

/-- `Reader::enterBlock(name)`. -/
def Reader.enterBlock (s : Reader) (name : Str) : Bool × Reader :=
  let s1 := if s.state = RState.ENTERED then Reader.moveNext s else s
  if s1.indent ≠ s1.expected_indent then (false, s1)
  else if s1.key = name then
    (true, { s1 with state := RState.ENTERED, expected_indent := s1.expected_indent + 1 })
  else (false, s1)

/-- `Reader::exitBlock` (the source asserts `expected_indent > 0` and
`state != UNHANDLED`; in release builds the code below runs unconditionally). -/
def Reader.exitBlock (s : Reader) : Reader :=
  let s0 := { s with expected_indent := s.expected_indent - 1, previous_value := ([] : Str) }
  let s1 := if s0.state = RState.ENTERED then Reader.moveNext s0 else s0
  { skipDeeper s1 with state := RState.HANDLED }

/-- Warning message of `Reader::unknownKey`. -/
def unexpectedKeyMsg (key : Str) : Str :=
  "Unexpected key: \x27".data ++ key ++ "\x27".data

/-- `Reader::unknownKey`: in leniency mode skip unconditionally (a `do`/`while`
loop, one `moveNext` before the first indent check); otherwise warn and skip
only when the key's indent is at or above the expected level. -/
def Reader.unknownKey (s : Reader) : Reader :=
  if s.ignore_invalid = true then skipDeeper (Reader.moveNext s)
  else if s.expected_indent ≤ s.indent then
    skipDeeper (Reader.moveNext (Reader.warning s (unexpectedKeyMsg s.key) 0 false))
  else s

/-- `Reader::handleIgnore(end_version, a)`. -/
def Reader.handleIgnore (s : Reader) (end_version : Int) (a : Str) : Reader :=
  if s.file_app_version < end_version then
    let r := Reader.enterBlock s a
    if r.1 = true then Reader.exitBlock r.2 else r.2
  else s

-- ----------------------------------------------------------------- getValue

/-- Warning message at the end of a multi-line value collection (including the
doubled word of the original). -/
def mlWarnMsg : Str :=
  ("Blank line or comment in text block, that is insufficiently indented.\n" ++
   "\t\tEither indent the comment/blank line, or add a \x27key:\x27 after it.\n" ++
   "\t\tThis could cause more more error messages.\n").data

/-- The inner `do { readLine(true); pending_newlines++; } while (trim(line).empty()
&& indent < expected_indent && !input.Eof());` loop of `Reader::getValue`, as
fuelled iteration; returns the state and the updated pending-newline count. -/
def gvInnerF : Nat → Reader → Nat → Reader × Nat
  | 0, s, p => (s, p)
  | n + 1, s, p =>
    let s1 := Reader.readLine true s
    if trim s1.line = [] ∧ s1.indent < s1.expected_indent ∧ s1.input.eofFlag = false then
      gvInnerF n s1 (p + 1)
    else (s1, p + 1)

/-- The inner collection loop at its adequate fuel (a `do`/`while` loop always
runs its body once, hence the `+ 1`). -/
def gvInner (s : Reader) (p : Nat) : Reader × Nat := gvInnerF (mu s + 1) s p

/-- The outer `while (indent >= expected_indent && !input.Eof())` loop of
`Reader::getValue`: flush pending newlines, append the line stripped of the
expected indentation, then run the inner loop. -/
def gvOuterF : Nat → Reader → Nat → Reader
  | 0, s, _ => s
  | n + 1, s, p =>
    if s.expected_indent ≤ s.indent ∧ s.input.eofFlag = false then
      let s1 := { s with previous_value :=
        s.previous_value ++ List.replicate p '\n' ++ s.line.drop s.expected_indent.toNat }
      let r := gvInner s1 0
      gvOuterF n r.1 r.2
    else s

/-- The outer collection loop at its adequate fuel. -/
def gvOuter (s : Reader) (p : Nat) : Reader := gvOuterF (mu s + 1) s p

/-- `Reader::getValue` (the source asserts `state != HANDLED`).  UNHANDLED
returns the remembered text once; an empty raw value triggers multi-line
collection; otherwise the raw value is remembered and the cursor advances. -/
def Reader.getValue (s : Reader) : Reader × Str :=
  if s.state = RState.UNHANDLED then
    ({ s with state := RState.HANDLED }, s.previous_value)
  else if s.value = [] then
    let s1 := Reader.readLine true { s with previous_value := ([] : Str) }
    let s2 := { s1 with previous_line_number := s1.line_number }
    let s3 := gvOuter s2 0
    let s4 := skipBlank { s3 with state := RState.HANDLED }
    let s5 :=
      if s4.key = [] ∧ s4.input.eofFlag = true then
        { s4 with line_number := s4.line_number + 1, indent := -1 }
      else s4
    let s6 := if s5.expected_indent ≤ s5.indent then Reader.warning s5 mlWarnMsg (-1) false else s5
    (s6, s6.previous_value)
  else
    let s1 := Reader.moveNext { s with previous_value := s.value }
    (s1, s1.previous_value)

-- ----------------------------------------------------------------- scalar handlers

/-- Value of a digit run in base 10. -/
def digitsToNat (l : Str) : Nat := l.foldl (fun a c => a * 10 + (c.toNat - 48)) 0

/-- The optional sign at the start of a number: the sign factor and the rest. -/
def stripSign : Str → Int × Str
  | '-' :: r => (-1, r)
  | '+' :: r => (1, r)
  | l => (1, l)

/-- `wxStrtol`-style base-10 scan: skip leading whitespace, optional sign,
longest digit run.  Returns the signed value, whether any digit was consumed
(`end != start` up to the sign), and the unconsumed rest.  Machine-width
clamping of out-of-range values is not modelled. -/
def strtol10 (l : Str) : Int × Bool × Str :=
  let sgn := stripSign (l.dropWhile isSpaceTab)
  let ds := sgn.2.takeWhile Char.isDigit
  let rest := sgn.2.dropWhile Char.isDigit
  (sgn.1 * digitsToNat ds, decide (ds ≠ []), rest)

/-- `wxString::ToLong`: parse with `strtol10`; succeed when at least one digit
was consumed and the whole string was consumed.  The partial value is written
through regardless, as `wxStrtol` writes through the out pointer. -/
def wxToLong (l : Str) : Bool × Int :=
  let r := strtol10 l
  (r.2.1 && r.2.2.isEmpty, r.1)

/-- First warning message of the unsigned-integer handler. -/
def uintWarnMsg (pv : Str) : Str :=
  "Expected non-negative integer instead of \x27".data ++ pv ++ "\x27".data

/-- Second warning message of the unsigned-integer handler (the source formats
the offending number into the text with `%d`; the rendered number is omitted
from the modelled message). -/
def uintNegWarnMsg : Str := "Expected non-negative integer instead of ".data

/-- `Reader::handle(unsigned int&)`: parse failure warns (the partial value, 0
when nothing parsed, still flows through); a negative value warns; the stored
result is `abs` of the long, truncated to the unsigned 32-bit width. -/
def Reader.handle_uint (s : Reader) : Reader × Nat :=
  let g := Reader.getValue s
  let tl := wxToLong g.2
  let s2 :=
    if tl.1 = false then Reader.warnDefault g.1 (uintWarnMsg g.1.previous_value)
    else if tl.2 < 0 then Reader.warnDefault g.1 uintNegWarnMsg
    else g.1
  (s2, tl.2.natAbs % 2 ^ 32)

/-- Warning message of the boolean handler. -/
def boolWarnMsg (v : Str) : Str :=
  "Expected boolean (\x27true\x27 or \x27false\x27) instead of \x27".data ++ v ++ "\x27".data

/-- `Reader::handle(bool&)`: exact (case-sensitive) token comparison; any other
token warns and leaves the destination at its prior value. -/
def Reader.handle_bool (s : Reader) (b : Bool) : Reader × Bool :=
  let g := Reader.getValue s
  if g.2 = "true".data ∨ g.2 = "1".data ∨ g.2 = "yes".data then (g.1, true)
  else if g.2 = "false".data ∨ g.2 = "0".data ∨ g.2 = "no".data then (g.1, false)
  else (Reader.warnDefault g.1 (boolWarnMsg g.2), b)

/-- The two error kinds of the reader: recoverable reads throw nothing, fatal
reads throw `ParseError`, and broken internal invariants throw `InternalError`. -/
inductive ReadError where
  | parseError : Str → ReadError
  | internalError : Str → ReadError
deriving DecidableEq

/-- Message of the fatal date-time error. -/
def dateTimeErrMsg : Str := "Expected a date and time".data

/-- `Reader::handle(wxDateTime&)`.  The locale-aware `wxDateTime::ParseDateTime`
is external to the sources and is abstracted as a parameter returning the end
position of the parse (`none` = outright parse failure).  A failed parse or
unparsed trailing characters raise a fatal `ParseError`. -/
def Reader.handle_datetime (pd : Str → Option Nat) (s : Reader) : Except ReadError Reader :=
  let g := Reader.getValue s
  match pd g.2 with
  | none => Except.error (ReadError.parseError dateTimeErrMsg)
  | some e =>
    if e ≠ g.2.length then Except.error (ReadError.parseError dateTimeErrMsg)
    else Except.ok g.1

/-- Characters skipped by a `%lf` conversion before the number. -/
def isScanfSpace (c : Char) : Bool := c == ' ' || c == '\t' || c == '\n' || c == '\r'

/-- The `%lf` conversion of `sscanf`, decimal grammar only (optional sign,
digits with optional fraction, optional exponent; hexadecimal and inf/nan forms
are not modelled).  `Except.error true` is an input failure (end of input
reached before the conversion could complete), `Except.error false` a matching
failure; `Except.ok rest` a completed conversion. -/
def scanLf (l : Str) : Except Bool Str :=
  let l1 := l.dropWhile isScanfSpace
  match l1 with
  | [] => Except.error true
  | _ =>
    let sr : Str :=
      match l1 with
      | '-' :: r => r
      | '+' :: r => r
      | _ => l1
    if sr = [] then Except.error true
    else
      let ip := sr.takeWhile Char.isDigit
      let r1 := sr.dropWhile Char.isDigit
      let fr : Str × Str :=
        match r1 with
        | '.' :: r => (r.takeWhile Char.isDigit, r.dropWhile Char.isDigit)
        | _ => ([], r1)
      if ip = [] ∧ fr.1 = [] then Except.error fr.2.isEmpty
      else
        match fr.2 with
        | 'e' :: r3 =>
          let r4 : Str := match r3 with | '-' :: r => r | '+' :: r => r | _ => r3
          if r4.takeWhile Char.isDigit = [] then Except.error r4.isEmpty
          else Except.ok (r4.dropWhile Char.isDigit)
        | 'E' :: r3 =>
          let r4 : Str := match r3 with | '-' :: r => r | '+' :: r => r | _ => r3
          if r4.takeWhile Char.isDigit = [] then Except.error r4.isEmpty
          else Except.ok (r4.dropWhile Char.isDigit)
        | _ => Except.ok fr.2

/-- Return value of `wxSscanf(v, "(%lf,%lf)", &x, &y)`: the number of completed
conversions, or `-1` (EOF) when input failure occurs before the first
conversion completes.  Literal characters must match exactly; a failure after
the first completed conversion still reports `1`. -/
def sscanfPointCount (l : Str) : Int :=
  match l with
  | [] => -1
  | c :: rest =>
    if c ≠ '(' then 0
    else
      match scanLf rest with
      | Except.error true => -1
      | Except.error false => 0
      | Except.ok r2 =>
        match r2 with
        | ',' :: r3 =>
          match scanLf r3 with
          | Except.error _ => 1
          | Except.ok _ => 2
        | _ => 1

/-- Message of the fatal point error. -/
def pointErrMsg : Str := "Expected (x,y)".data

/-- `Reader::handle(Vector2D&)`: `if (!wxSscanf(...)) throw ParseError(...)`,
so the fatal error is raised exactly when the scan count is 0 (an EOF result of
`-1` is truthy in C and raises nothing). -/
def Reader.handle_vector2d (s : Reader) : Except ReadError Reader :=
  let g := Reader.getValue s
  if sscanfPointCount g.2 = 0 then Except.error (ReadError.parseError pointErrMsg)
  else Except.ok g.1

-- ----------------------------------------------------------------- EnumReader

/-- The enum decoder's completion state: whether a candidate matched, the first
candidate name offered (`none` models the null pointer before any candidate was
offered), and the literal text read. -/
structure EnumReader where
  done : Bool
  first : Option Str
  read : Str
deriving DecidableEq

/-- Message of the internal error raised when no candidate was ever offered. -/
def noFirstMsg : Str := "No first value in EnumReader".data

/-- The "unrecognized value" diagnostic (modelled from the `_ERROR_2_` message
template, naming the text read and the first known candidate). -/
def unrecognizedMsg (rd first : Str) : Str :=
  "unrecognized value \x27".data ++ rd ++ "\x27, expected \x27".data ++ first ++ "\x27".data

/-- `EnumReader::notDoneErrorMessage`: throws `InternalError` when no candidate
name was ever remembered, otherwise builds the "unrecognized value" message. -/
def EnumReader.notDoneErrorMessage (er : EnumReader) : Except ReadError Str :=
  match er.first with
  | none => Except.error (ReadError.internalError noFirstMsg)
  | some f => Except.ok (unrecognizedMsg er.read f)

/-- `EnumReader::warnIfNotDone`: on an unmatched decode, record a warning built
from `notDoneErrorMessage` (whose `InternalError` propagates instead when it
throws). -/
def EnumReader.warnIfNotDone (er : EnumReader) (s : Reader) : Except ReadError Reader :=
  if er.done = false then
    match er.notDoneErrorMessage with
    | Except.error e => Except.error e
    | Except.ok m => Except.ok (Reader.warnDefault s m)
  else Except.ok s

/-- `EnumReader::errorIfNotDone`: on an unmatched decode, throw a fatal
`ParseError` built from `notDoneErrorMessage` (whose `InternalError` propagates
instead when it throws). -/
def EnumReader.errorIfNotDone (er : EnumReader) : Except ReadError Unit :=
  if er.done = false then
    match er.notDoneErrorMessage with
    | Except.error e => Except.error e
    | Except.ok m => Except.error (ReadError.parseError m)
  else Except.ok ()

-- ----------------------------------------------------------------- line classification

/-- A line that came from `read_utf8_line` contains no line terminator. -/
def noCR (l : Str) : Prop := '\n' ∉ l ∧ '\r' ∉ l

/-- A non-blank continuation line of a multi-line value, indented at least to
the expected nesting level. -/
def contentLine (e : Int) (l : Str) : Prop :=
  noCR l ∧ trim l ≠ [] ∧ e ≤ (tabIndent l : Int)

/-- A blank interior line of a multi-line value that is not indented enough
(the inner collection loop buffers it as a pending newline). -/
def blankLowLine (e : Int) (l : Str) : Prop :=
  noCR l ∧ trim l = [] ∧ (tabIndent l : Int) < e

/-- The dedented, non-blank, non-comment line that terminates a multi-line
value collection (typically the next sibling key). -/
def termLine (e : Int) (l : Str) : Prop :=
  noCR l ∧ allSpaceTab l = false ∧ l.getD (tabIndent l) ' ' ≠ '#' ∧ (tabIndent l : Int) < e

instance (l : Str) : Decidable (noCR l) :=
  show Decidable ('\n' ∉ l ∧ '\r' ∉ l) from inferInstance

instance (e : Int) (l : Str) : Decidable (contentLine e l) :=
  show Decidable (noCR l ∧ trim l ≠ [] ∧ e ≤ (tabIndent l : Int)) from inferInstance

instance (e : Int) (l : Str) : Decidable (blankLowLine e l) :=
  show Decidable (noCR l ∧ trim l = [] ∧ (tabIndent l : Int) < e) from inferInstance

instance (e : Int) (l : Str) : Decidable (termLine e l) :=
  show Decidable (noCR l ∧ allSpaceTab l = false ∧ l.getD (tabIndent l) ' ' ≠ '#' ∧
    (tabIndent l : Int) < e) from inferInstance

/-- Encode a sequence of lines as stream characters, each line terminated by a
newline. -/
def encodeLines : List Str → List Char
  | [] => []
  | l :: ls => l ++ '\n' :: encodeLines ls

/-- The interior lines of a multi-line block after the first: each chunk is a
run of blank under-indented lines followed by one content line. -/
def chunkLines : List (List Str × Str) → List Str
  | [] => []
  | pr :: rest => pr.1 ++ pr.2 :: chunkLines rest

/-- The text that the collection loop appends for the chunks after the first
content line: one newline per buffered line (the blanks plus the single
newline separating content lines), then the content stripped of the expected
indentation. -/
def chunkText (e : Nat) : List (List Str × Str) → Str
  | [] => []
  | pr :: rest => List.replicate (pr.1.length + 1) '\n' ++ pr.2.drop e ++ chunkText e rest

-- ----------------------------------------------------------------- readLineRaw lemmas

lemma readLineRaw_append (l : Str) (rest : List Char) (hnc : noCR l) :
    readLineRaw (l ++ '\n' :: rest) = (l, rest, false) := by
  induction l with
  | nil => simp [readLineRaw]
  | cons c l ih =>
    have hc1 : c ≠ '\n' := fun h => hnc.1 (h ▸ List.mem_cons_self c l)
    have hc2 : c ≠ '\r' := fun h => hnc.2 (h ▸ List.mem_cons_self c l)
    have hnc' : noCR l := ⟨fun h => hnc.1 (List.mem_cons_of_mem c h),
                           fun h => hnc.2 (List.mem_cons_of_mem c h)⟩
    simp [readLineRaw, hc1, hc2, ih hnc']

lemma readLineRaw_len (l : Str) : (readLineRaw l).2.1.length ≤ l.length := by
  induction l with
  | nil => simp [readLineRaw]
  | cons c rest ih =>
    by_cases h1 : c = '\n'
    · simp [readLineRaw, h1]
    · by_cases h2 : c = '\r'
      · cases rest with
        | nil => simp [readLineRaw, h1, h2]
        | cons c2 rest2 =>
          by_cases h3 : c2 = '\n'
          · simp [readLineRaw, h1, h2, h3]
            omega
          · simp [readLineRaw, h1, h2, h3]
      · simp only [readLineRaw, if_neg h1, if_neg h2, List.length_cons]
        omega

lemma readLineRaw_mu (l : Str) (h : l ≠ []) :
    (readLineRaw l).2.1.length + (if (readLineRaw l).2.2 = true then 0 else 1) ≤ l.length := by
  induction l with
  | nil => exact absurd rfl h
  | cons c rest ih =>
    by_cases h1 : c = '\n'
    · simp [readLineRaw, h1]
    · by_cases h2 : c = '\r'
      · cases rest with
        | nil => simp [readLineRaw, h1, h2]
        | cons c2 rest2 =>
          by_cases h3 : c2 = '\n' <;> simp [readLineRaw, h1, h2, h3]
      · simp only [readLineRaw, if_neg h1, if_neg h2, List.length_cons]
        cases rest with
        | nil => simp [readLineRaw]
        | cons c3 rest3 =>
          have := ih (by simp)
          omega

-- ----------------------------------------------------------------- readLine lemmas

lemma readLine_expected (b : Bool) (s : Reader) :
    (Reader.readLine b s).expected_indent = s.expected_indent := rfl

lemma readLine_state (b : Bool) (s : Reader) :
    (Reader.readLine b s).state = s.state := rfl

lemma readLine_prev_value (b : Bool) (s : Reader) :
    (Reader.readLine b s).previous_value = s.previous_value := rfl

lemma readLine_prev_ln (b : Bool) (s : Reader) :
    (Reader.readLine b s).previous_line_number = s.previous_line_number := rfl

lemma readLine_ignore (b : Bool) (s : Reader) :
    (Reader.readLine b s).ignore_invalid = s.ignore_invalid := rfl

lemma readLine_fav (b : Bool) (s : Reader) :
    (Reader.readLine b s).file_app_version = s.file_app_version := rfl

lemma readLine_ln (b : Bool) (s : Reader) :
    (Reader.readLine b s).line_number = s.line_number + 1 := rfl

lemma readLine_eof_mono (b : Bool) (s : Reader) (h : s.input.eofFlag = true) :
    (Reader.readLine b s).input.eofFlag = true := by
  simp [Reader.readLine, read_utf8_line, h]

lemma readLine_mu_eq (b : Bool) (s : Reader) :
    mu (Reader.readLine b s) =
      (readLineRaw s.input.data).2.1.length +
        (if (s.input.eofFlag || (readLineRaw s.input.data).2.2) = true then 0 else 1) := rfl

lemma readLine_mu_lt (b : Bool) (s : Reader) (h : s.input.eofFlag = false) :
    mu (Reader.readLine b s) < mu s := by
  rw [readLine_mu_eq]
  simp only [h, Bool.false_or, mu]
  cases hd : s.input.data with
  | nil => simp [hd, readLineRaw]
  | cons c rest =>
    have hm := readLineRaw_mu (c :: rest) (by simp)
    by_cases hf : (readLineRaw (c :: rest)).2.2 = true
    · simp only [hf, if_pos rfl] at hm ⊢
      simp only [if_neg Bool.false_ne_true]
      omega
    · simp only [if_neg hf] at hm ⊢
      simp only [if_neg Bool.false_ne_true]
      omega

lemma readLine_mu_le (b : Bool) (s : Reader) : mu (Reader.readLine b s) ≤ mu s := by
  cases he : s.input.eofFlag with
  | false => exact Nat.le_of_lt (readLine_mu_lt b s he)
  | true =>
    rw [readLine_mu_eq]
    simp only [he, Bool.true_or, if_pos rfl, Nat.add_zero, mu]
    have := readLineRaw_len s.input.data
    omega

lemma readLine_eof_not (b : Bool) (s : Reader)
    (h : (Reader.readLine b s).input.eofFlag = false) : s.input.eofFlag = false := by
  cases he : s.input.eofFlag with
  | false => rfl
  | true => exact absurd (readLine_eof_mono b s he) (by simp [h])

lemma readLine_warn_eq (b : Bool) (s : Reader) :
    (Reader.readLine b s).warnings =
      s.warnings ++ (parseLine s.ignore_invalid b (read_utf8_line s.input).1).warns.map
        (fun m => (((s.line_number + 1 : Nat) : Int), m)) := rfl

lemma mu_zero_eof (s : Reader) (h : mu s = 0) : s.input.eofFlag = true := by
  unfold mu at h
  cases he : s.input.eofFlag with
  | true => rfl
  | false => rw [he] at h; simp at h

-- ----------------------------------------------------------------- trim lemmas

lemma trim_eq_nil_iff (l : Str) : trim l = [] ↔ allSpaceTab l = true := by
  unfold trim allSpaceTab
  rw [List.reverse_eq_nil_iff, List.dropWhile_eq_nil_iff, List.all_eq_true]
  constructor
  · intro h x hx
    rcases List.mem_append.mp ((List.takeWhile_append_dropWhile (p := isSpaceTab) (l := l)) ▸ hx) with h1 | h1
    · exact List.mem_takeWhile_imp h1
    · exact h x (List.mem_reverse.mpr h1)
  · intro h x hx
    exact h x ((List.dropWhile_sublist (p := isSpaceTab)).subset (List.mem_reverse.mp hx))

lemma tabIndent_take (l : Str) : List.take (tabIndent l) l = List.replicate (tabIndent l) '\t' := by
  induction l with
  | nil => simp [tabIndent]
  | cons c rest ih =>
    by_cases hc : c = '\t'
    · simp [tabIndent, hc, List.replicate_succ, ih]
    · simp [tabIndent, hc]

lemma trim_drop_ne (l : Str) (h : allSpaceTab l = false) : trim (l.drop (tabIndent l)) ≠ [] := by
  intro hnil
  have hall := (trim_eq_nil_iff _).mp hnil
  rw [allSpaceTab, List.all_eq_true] at hall
  have : allSpaceTab l = true := by
    rw [allSpaceTab, List.all_eq_true]
    intro x hx
    rcases List.mem_append.mp ((List.take_append_drop (tabIndent l) l) ▸ hx) with h1 | h1
    · rw [tabIndent_take] at h1
      rw [List.eq_of_mem_replicate h1]
      rfl
    · exact hall x h1
  rw [h] at this
  exact Bool.false_ne_true this

-- ----------------------------------------------------------------- parseLine lemmas

lemma parseLine_blank (ig b : Bool) (l : Str) (h : trim l = []) :
    parseLine ig b l = ⟨(tabIndent l : Int), [], [], [], true⟩ := by
  have h1 := (trim_eq_nil_iff l).mp h
  simp [parseLine, h1]

lemma parseLine_true_indent (ig : Bool) (l : Str) :
    (parseLine ig true l).indent = (tabIndent l : Int) := by
  simp only [parseLine]
  split
  · rfl
  · simp

lemma parseLine_true_warns (ig : Bool) (l : Str) : (parseLine ig true l).warns = [] := by
  simp only [parseLine]
  split
  · rfl
  · simp

lemma parseLine_ign_warns (b : Bool) (l : Str) : (parseLine true b l).warns = [] := by
  simp only [parseLine]
  split
  · rfl
  · simp

lemma parseLine_notblank (ig b : Bool) (l : Str)
    (h1 : allSpaceTab l = false) (h2 : l.getD (tabIndent l) ' ' ≠ '#') :
    (parseLine ig b l).blank = false := by
  simp only [parseLine]
  split
  · next hcond =>
      rcases hcond with hA | hB
      · rw [h1] at hA
        exact absurd hA Bool.false_ne_true
      · exact absurd hB h2
  · rfl

lemma parseLine_key_ne (ig : Bool) (l : Str)
    (h1 : allSpaceTab l = false) (h2 : l.getD (tabIndent l) ' ' ≠ '#') :
    (parseLine ig true l).key ≠ [] := by
  simp only [parseLine]
  split
  · next hcond =>
      rcases hcond with hA | hB
      · rw [h1] at hA
        exact absurd hA Bool.false_ne_true
      · exact absurd hB h2
  · simp only []
    cases hpos : findFrom ':' l (tabIndent l) with
    | some p =>
      by_cases hk : canonical_name_form (trim ((l.drop (tabIndent l)).take (p - tabIndent l))) = []
      · simp [hpos, hk]
      · simp [hpos, hk]
    | none =>
      have := trim_drop_ne l h1
      simp [hpos, canonical_name_form, this]

-- ----------------------------------------------------------------- skipBlank lemmas

lemma skipBlankF_stop (s : Reader) (h : ¬(s.key = [] ∧ s.input.eofFlag = false)) :
    ∀ n, skipBlankF n s = s := by
  intro n
  cases n with
  | zero => rfl
  | succ n => simp [skipBlankF, h]

lemma skipBlankF_congr : ∀ (n : Nat) (m : Nat) (s : Reader), mu s ≤ n → mu s ≤ m →
    skipBlankF n s = skipBlankF m s := by
  intro n
  induction n with
  | zero =>
    intro m s hn _
    have he := mu_zero_eof s (Nat.le_zero.mp hn)
    rw [skipBlankF_stop s (by simp [he]), skipBlankF_stop s (by simp [he])]
  | succ n ih =>
    intro m s hn hm
    by_cases hc : s.key = [] ∧ s.input.eofFlag = false
    · have hmu : 1 ≤ mu s := by
        unfold mu
        rw [hc.2]
        simp
      cases m with
      | zero => omega
      | succ m' =>
        have hlt := readLine_mu_lt false s hc.2
        simp only [skipBlankF, if_pos hc]
        exact ih m' (Reader.readLine false s) (by omega) (by omega)
    · rw [skipBlankF_stop s hc, skipBlankF_stop s hc]

lemma skipBlank_eq (s : Reader) :
    skipBlank s =
      if s.key = [] ∧ s.input.eofFlag = false then skipBlank (Reader.readLine false s) else s := by
  by_cases hc : s.key = [] ∧ s.input.eofFlag = false
  · rw [if_pos hc]
    have hmu : 1 ≤ mu s := by
      unfold mu
      rw [hc.2]
      simp
    obtain ⟨k, hk⟩ : ∃ k, mu s = k + 1 := ⟨mu s - 1, by omega⟩
    have hlt := readLine_mu_lt false s hc.2
    unfold skipBlank
    rw [hk]
    simp only [skipBlankF, if_pos hc]
    exact skipBlankF_congr k (mu (Reader.readLine false s)) _ (by omega) (le_refl _)
  · rw [if_neg hc]
    exact skipBlankF_stop s hc (mu s)

lemma skipBlankF_expected (n : Nat) : ∀ s, (skipBlankF n s).expected_indent = s.expected_indent := by
  induction n with
  | zero => intro s; rfl
  | succ n ih =>
    intro s
    by_cases hc : s.key = [] ∧ s.input.eofFlag = false
    · simp only [skipBlankF, if_pos hc]
      rw [ih, readLine_expected]
    · simp [skipBlankF, hc]

lemma skipBlankF_state (n : Nat) : ∀ s, (skipBlankF n s).state = s.state := by
  induction n with
  | zero => intro s; rfl
  | succ n ih =>
    intro s
    by_cases hc : s.key = [] ∧ s.input.eofFlag = false
    · simp only [skipBlankF, if_pos hc]
      rw [ih, readLine_state]
    · simp [skipBlankF, hc]

lemma skipBlankF_ignore (n : Nat) : ∀ s, (skipBlankF n s).ignore_invalid = s.ignore_invalid := by
  induction n with
  | zero => intro s; rfl
  | succ n ih =>
    intro s
    by_cases hc : s.key = [] ∧ s.input.eofFlag = false
    · simp only [skipBlankF, if_pos hc]
      rw [ih, readLine_ignore]
    · simp [skipBlankF, hc]

lemma skipBlankF_fav (n : Nat) : ∀ s, (skipBlankF n s).file_app_version = s.file_app_version := by
  induction n with
  | zero => intro s; rfl
  | succ n ih =>
    intro s
    by_cases hc : s.key = [] ∧ s.input.eofFlag = false
    · simp only [skipBlankF, if_pos hc]
      rw [ih, readLine_fav]
    · simp [skipBlankF, hc]

lemma skipBlankF_prev_value (n : Nat) :
    ∀ s, (skipBlankF n s).previous_value = s.previous_value := by
  induction n with
  | zero => intro s; rfl
  | succ n ih =>
    intro s
    by_cases hc : s.key = [] ∧ s.input.eofFlag = false
    · simp only [skipBlankF, if_pos hc]
      rw [ih, readLine_prev_value]
    · simp [skipBlankF, hc]

lemma skipBlankF_mu_le (n : Nat) : ∀ s, mu (skipBlankF n s) ≤ mu s := by
  induction n with
  | zero => intro s; exact le_refl _
  | succ n ih =>
    intro s
    by_cases hc : s.key = [] ∧ s.input.eofFlag = false
    · simp only [skipBlankF, if_pos hc]
      exact le_trans (ih _) (readLine_mu_le false s)
    · simp [skipBlankF, hc]

lemma skipBlankF_warn_mono (n : Nat) :
    ∀ s, ∃ t, (skipBlankF n s).warnings = s.warnings ++ t := by
  induction n with
  | zero => intro s; exact ⟨[], by simp [skipBlankF]⟩
  | succ n ih =>
    intro s
    by_cases hc : s.key = [] ∧ s.input.eofFlag = false
    · simp only [skipBlankF, if_pos hc]
      obtain ⟨t, ht⟩ := ih (Reader.readLine false s)
      refine ⟨(parseLine s.ignore_invalid false (read_utf8_line s.input).1).warns.map
        (fun m => (((s.line_number + 1 : Nat) : Int), m)) ++ t, ?_⟩
      rw [ht, readLine_warn_eq, List.append_assoc]
    · simp [skipBlankF, hc]

lemma skipBlankF_warn_ign (n : Nat) :
    ∀ s, s.ignore_invalid = true → (skipBlankF n s).warnings = s.warnings := by
  induction n with
  | zero => intro s _; rfl
  | succ n ih =>
    intro s hig
    by_cases hc : s.key = [] ∧ s.input.eofFlag = false
    · simp only [skipBlankF, if_pos hc]
      rw [ih _ (by rw [readLine_ignore]; exact hig), readLine_warn_eq, hig,
        parseLine_ign_warns]
      simp
    · simp [skipBlankF, hc]

-- ----------------------------------------------------------------- moveNext lemmas

lemma moveNext_expected (s : Reader) :
    (Reader.moveNext s).expected_indent = s.expected_indent := by
  simp only [Reader.moveNext, skipBlank]
  split
  · simp [skipBlankF_expected]
  · simp [skipBlankF_expected]

lemma moveNext_state (s : Reader) : (Reader.moveNext s).state = RState.HANDLED := by
  simp only [Reader.moveNext, skipBlank]
  split
  · simp [skipBlankF_state]
  · simp [skipBlankF_state]

lemma moveNext_ignore (s : Reader) : (Reader.moveNext s).ignore_invalid = s.ignore_invalid := by
  simp only [Reader.moveNext, skipBlank]
  split
  · simp [skipBlankF_ignore]
  · simp [skipBlankF_ignore]

lemma moveNext_fav (s : Reader) : (Reader.moveNext s).file_app_version = s.file_app_version := by
  simp only [Reader.moveNext, skipBlank]
  split
  · simp [skipBlankF_fav]
  · simp [skipBlankF_fav]

lemma moveNext_prev_value (s : Reader) :
    (Reader.moveNext s).previous_value = s.previous_value := by
  simp only [Reader.moveNext, skipBlank]
  split
  · simp [skipBlankF_prev_value]
  · simp [skipBlankF_prev_value]

lemma moveNext_mu_le (s : Reader) : mu (Reader.moveNext s) ≤ mu s := by
  simp only [Reader.moveNext, skipBlank]
  split
  · exact skipBlankF_mu_le _ _
  · exact skipBlankF_mu_le _ _

lemma skipBlank_mu_lt (s : Reader) (hk : s.key = []) (he : s.input.eofFlag = false) :
    mu (skipBlank s) < mu s := by
  rw [skipBlank_eq, if_pos ⟨hk, he⟩]
  exact lt_of_le_of_lt (skipBlankF_mu_le _ _) (readLine_mu_lt false s he)

lemma moveNext_mu_lt (s : Reader) (h : s.input.eofFlag = false) :
    mu (Reader.moveNext s) < mu s := by
  have h1 : mu (skipBlank { s with previous_line_number := s.line_number, state := RState.HANDLED, key := ([] : Str), indent := -1 }) < mu s :=
    skipBlank_mu_lt _ rfl h
  simp only [Reader.moveNext, skipBlank] at h1 ⊢
  split
  · exact h1
  · exact h1

lemma moveNext_warn_mono (s : Reader) :
    ∃ t, (Reader.moveNext s).warnings = s.warnings ++ t := by
  simp only [Reader.moveNext, skipBlank]
  split
  · exact skipBlankF_warn_mono _ _
  · exact skipBlankF_warn_mono _ _

lemma moveNext_warn_ign (s : Reader) (h : s.ignore_invalid = true) :
    (Reader.moveNext s).warnings = s.warnings := by
  simp only [Reader.moveNext, skipBlank]
  split
  · exact skipBlankF_warn_ign _ _ h
  · exact skipBlankF_warn_ign _ _ h

lemma moveNext_eofTrue (s : Reader) (h : s.input.eofFlag = true) :
    Reader.moveNext s =
      { s with previous_line_number := s.line_number, state := RState.HANDLED,
               key := ([] : Str), indent := -1, line_number := s.line_number + 1 } := by
  simp only [Reader.moveNext, skipBlank]
  rw [skipBlankF_stop _ (by simp [h])]
  simp [h]

-- ----------------------------------------------------------------- skipDeeper lemmas

lemma skipDeeperF_stop (s : Reader) (h : ¬(s.expected_indent < s.indent)) :
    ∀ n, skipDeeperF n s = s := by
  intro n
  cases n with
  | zero => rfl
  | succ n => simp [skipDeeperF, h]

lemma skipDeeperF_congr : ∀ (n : Nat) (m : Nat) (s : Reader), -1 ≤ s.expected_indent →
    mu s + 2 ≤ n → mu s + 2 ≤ m → skipDeeperF n s = skipDeeperF m s := by
  intro n
  induction n with
  | zero => intro m s _ hn _; omega
  | succ n ih =>
    intro m s hexp hn hm
    by_cases hc : s.expected_indent < s.indent
    · cases m with
      | zero => omega
      | succ m' =>
        simp only [skipDeeperF, if_pos hc]
        cases he : s.input.eofFlag with
        | true =>
          have hmv := moveNext_eofTrue s he
          have hstop : ¬((Reader.moveNext s).expected_indent < (Reader.moveNext s).indent) := by
            rw [hmv]
            show ¬(s.expected_indent < -1)
            omega
          rw [skipDeeperF_stop _ hstop, skipDeeperF_stop _ hstop]
        | false =>
          have hlt := moveNext_mu_lt s he
          have hexp' : -1 ≤ (Reader.moveNext s).expected_indent := by
            rw [moveNext_expected]; exact hexp
          exact ih m' (Reader.moveNext s) hexp' (by omega) (by omega)
    · rw [skipDeeperF_stop s hc, skipDeeperF_stop s hc]

lemma skipDeeperF_succ (n : Nat) (s : Reader) :
    skipDeeperF (n + 1) s =
      if s.expected_indent < s.indent then skipDeeperF n (Reader.moveNext s) else s := rfl

lemma skipDeeper_eq (s : Reader) (hexp : -1 ≤ s.expected_indent) :
    skipDeeper s =
      if s.expected_indent < s.indent then skipDeeper (Reader.moveNext s) else s := by
  by_cases hc : s.expected_indent < s.indent
  · rw [if_pos hc]
    show skipDeeperF (mu s + 1 + 1) s = skipDeeper (Reader.moveNext s)
    rw [skipDeeperF_succ, if_pos hc]
    cases he : s.input.eofFlag with
    | true =>
      have hmv := moveNext_eofTrue s he
      have hstop : ¬((Reader.moveNext s).expected_indent < (Reader.moveNext s).indent) := by
        rw [hmv]
        show ¬(s.expected_indent < -1)
        omega
      rw [skipDeeperF_stop _ hstop]
      unfold skipDeeper
      rw [skipDeeperF_stop _ hstop]
    | false =>
      have hlt := moveNext_mu_lt s he
      have hexp' : -1 ≤ (Reader.moveNext s).expected_indent := by
        rw [moveNext_expected]; exact hexp
      exact skipDeeperF_congr (mu s + 1) (mu (Reader.moveNext s) + 2) (Reader.moveNext s)
        hexp' (by omega) (le_refl _)
  · rw [if_neg hc]
    exact skipDeeperF_stop s hc _

lemma skipDeeperF_expected (n : Nat) :
    ∀ s, (skipDeeperF n s).expected_indent = s.expected_indent := by
  induction n with
  | zero => intro s; rfl
  | succ n ih =>
    intro s
    by_cases hc : s.expected_indent < s.indent
    · simp only [skipDeeperF, if_pos hc]
      rw [ih, moveNext_expected]
    · simp [skipDeeperF, hc]

lemma skipDeeperF_ignore (n : Nat) :
    ∀ s, (skipDeeperF n s).ignore_invalid = s.ignore_invalid := by
  induction n with
  | zero => intro s; rfl
  | succ n ih =>
    intro s
    by_cases hc : s.expected_indent < s.indent
    · simp only [skipDeeperF, if_pos hc]
      rw [ih, moveNext_ignore]
    · simp [skipDeeperF, hc]

lemma skipDeeperF_mu_le (n : Nat) : ∀ s, mu (skipDeeperF n s) ≤ mu s := by
  induction n with
  | zero => intro s; exact le_refl _
  | succ n ih =>
    intro s
    by_cases hc : s.expected_indent < s.indent
    · simp only [skipDeeperF, if_pos hc]
      exact le_trans (ih _) (moveNext_mu_le s)
    · simp [skipDeeperF, hc]

lemma skipDeeperF_warn_mono (n : Nat) :
    ∀ s, ∃ t, (skipDeeperF n s).warnings = s.warnings ++ t := by
  induction n with
  | zero => intro s; exact ⟨[], by simp [skipDeeperF]⟩
  | succ n ih =>
    intro s
    by_cases hc : s.expected_indent < s.indent
    · simp only [skipDeeperF, if_pos hc]
      obtain ⟨t1, ht1⟩ := moveNext_warn_mono s
      obtain ⟨t2, ht2⟩ := ih (Reader.moveNext s)
      exact ⟨t1 ++ t2, by rw [ht2, ht1, List.append_assoc]⟩
    · simp [skipDeeperF, hc]

lemma skipDeeperF_warn_ign (n : Nat) :
    ∀ s, s.ignore_invalid = true → (skipDeeperF n s).warnings = s.warnings := by
  induction n with
  | zero => intro s _; rfl
  | succ n ih =>
    intro s hig
    by_cases hc : s.expected_indent < s.indent
    · simp only [skipDeeperF, if_pos hc]
      rw [ih _ (by rw [moveNext_ignore]; exact hig), moveNext_warn_ign s hig]
    · simp [skipDeeperF, hc]

lemma skipDeeper_sentinel (s : Reader) (h1 : s.indent = -1) (hexp : -1 ≤ s.expected_indent) :
    skipDeeper s = s := by
  unfold skipDeeper
  apply skipDeeperF_stop
  rw [h1]
  omega

lemma skipDeeper_post : ∀ (n : Nat) (s : Reader), mu s ≤ n → -1 ≤ s.expected_indent →
    (skipDeeper s).indent ≤ (skipDeeper s).expected_indent := by
  intro n
  induction n with
  | zero =>
    intro s hn hexp
    have he := mu_zero_eof s (Nat.le_zero.mp hn)
    rw [skipDeeper_eq s hexp]
    by_cases hc : s.expected_indent < s.indent
    · rw [if_pos hc, moveNext_eofTrue s he]
      rw [skipDeeper_sentinel { s with previous_line_number := s.line_number, state := RState.HANDLED, key := ([] : Str), indent := -1, line_number := s.line_number + 1 } rfl hexp]
      show (-1 : Int) ≤ s.expected_indent
      exact hexp
    · rw [if_neg hc]
      omega
  | succ n ih =>
    intro s hn hexp
    rw [skipDeeper_eq s hexp]
    by_cases hc : s.expected_indent < s.indent
    · rw [if_pos hc]
      cases he : s.input.eofFlag with
      | true =>
        rw [moveNext_eofTrue s he]
        rw [skipDeeper_sentinel { s with previous_line_number := s.line_number, state := RState.HANDLED, key := ([] : Str), indent := -1, line_number := s.line_number + 1 } rfl hexp]
        show (-1 : Int) ≤ s.expected_indent
        exact hexp
      | false =>
        have hlt := moveNext_mu_lt s he
        exact ih (Reader.moveNext s) (by omega) (by rw [moveNext_expected]; exact hexp)
    · rw [if_neg hc]
      omega

-- ----------------------------------------------------------------- getValue loop lemmas

lemma gvInnerF_succ (n : Nat) (s : Reader) (p : Nat) :
    gvInnerF (n + 1) s p =
      (let s1 := Reader.readLine true s
       if trim s1.line = [] ∧ s1.indent < s1.expected_indent ∧ s1.input.eofFlag = false then
         gvInnerF n s1 (p + 1)
       else (s1, p + 1)) := rfl

lemma gvInnerF_mu (n : Nat) : ∀ (s : Reader) (p : Nat), mu (gvInnerF n s p).1 ≤ mu s := by
  induction n with
  | zero => intro s p; exact le_refl _
  | succ n ih =>
    intro s p
    rw [gvInnerF_succ]
    by_cases hc : trim (Reader.readLine true s).line = [] ∧
        (Reader.readLine true s).indent < (Reader.readLine true s).expected_indent ∧
        (Reader.readLine true s).input.eofFlag = false
    · simp only [if_pos hc]
      exact le_trans (ih _ _) (readLine_mu_le true s)
    · simp only [if_neg hc]
      exact readLine_mu_le true s

lemma gvInnerF_congr : ∀ (n m : Nat) (s : Reader) (p : Nat), mu s < n → mu s < m →
    gvInnerF n s p = gvInnerF m s p := by
  intro n
  induction n with
  | zero => intro m s p hn _; omega
  | succ n ih =>
    intro m s p hn hm
    cases m with
    | zero => omega
    | succ m' =>
      rw [gvInnerF_succ, gvInnerF_succ]
      by_cases hc : trim (Reader.readLine true s).line = [] ∧
          (Reader.readLine true s).indent < (Reader.readLine true s).expected_indent ∧
          (Reader.readLine true s).input.eofFlag = false
      · simp only [if_pos hc]
        have hne := readLine_eof_not true s hc.2.2
        have hlt := readLine_mu_lt true s hne
        exact ih m' (Reader.readLine true s) (p + 1) (by omega) (by omega)
      · simp only [if_neg hc]

lemma gvInner_eq (s : Reader) (p : Nat) :
    gvInner s p =
      (let s1 := Reader.readLine true s
       if trim s1.line = [] ∧ s1.indent < s1.expected_indent ∧ s1.input.eofFlag = false then
         gvInner s1 (p + 1)
       else (s1, p + 1)) := by
  show gvInnerF (mu s + 1) s p = _
  rw [gvInnerF_succ]
  by_cases hc : trim (Reader.readLine true s).line = [] ∧
      (Reader.readLine true s).indent < (Reader.readLine true s).expected_indent ∧
      (Reader.readLine true s).input.eofFlag = false
  · simp only [if_pos hc]
    have hne := readLine_eof_not true s hc.2.2
    have hlt := readLine_mu_lt true s hne
    exact gvInnerF_congr (mu s) (mu (Reader.readLine true s) + 1) _ _ (by omega) (by omega)
  · simp only [if_neg hc]

lemma gvInner_mu_lt (s : Reader) (p : Nat) (he : s.input.eofFlag = false) :
    mu (gvInner s p).1 < mu s := by
  show mu (gvInnerF (mu s + 1) s p).1 < mu s
  rw [gvInnerF_succ]
  have hlt := readLine_mu_lt true s he
  by_cases hc : trim (Reader.readLine true s).line = [] ∧
      (Reader.readLine true s).indent < (Reader.readLine true s).expected_indent ∧
      (Reader.readLine true s).input.eofFlag = false
  · simp only [if_pos hc]
    exact lt_of_le_of_lt (gvInnerF_mu _ _ _) hlt
  · simp only [if_neg hc]
    exact hlt

lemma gvOuterF_succ (n : Nat) (s : Reader) (p : Nat) :
    gvOuterF (n + 1) s p =
      (if s.expected_indent ≤ s.indent ∧ s.input.eofFlag = false then
        (let s1 := { s with previous_value :=
          s.previous_value ++ List.replicate p '\n' ++ s.line.drop s.expected_indent.toNat }
         let r := gvInner s1 0
         gvOuterF n r.1 r.2)
      else s) := rfl

lemma gvOuterF_congr : ∀ (n m : Nat) (s : Reader) (p : Nat), mu s < n → mu s < m →
    gvOuterF n s p = gvOuterF m s p := by
  intro n
  induction n with
  | zero => intro m s p hn _; omega
  | succ n ih =>
    intro m s p hn hm
    cases m with
    | zero => omega
    | succ m' =>
      rw [gvOuterF_succ, gvOuterF_succ]
      by_cases hc : s.expected_indent ≤ s.indent ∧ s.input.eofFlag = false
      · simp only [if_pos hc]
        have hlt : mu (gvInner { s with previous_value :=
            s.previous_value ++ List.replicate p '\n' ++ s.line.drop s.expected_indent.toNat } 0).1 < mu s :=
          gvInner_mu_lt _ 0 hc.2
        exact ih m' _ _ (by omega) (by omega)
      · simp only [if_neg hc]

lemma gvOuter_eq (s : Reader) (p : Nat) :
    gvOuter s p =
      (if s.expected_indent ≤ s.indent ∧ s.input.eofFlag = false then
        (let s1 := { s with previous_value :=
          s.previous_value ++ List.replicate p '\n' ++ s.line.drop s.expected_indent.toNat }
         let r := gvInner s1 0
         gvOuter r.1 r.2)
      else s) := by
  show gvOuterF (mu s + 1) s p = _
  rw [gvOuterF_succ]
  by_cases hc : s.expected_indent ≤ s.indent ∧ s.input.eofFlag = false
  · simp only [if_pos hc]
    have hlt : mu (gvInner { s with previous_value :=
        s.previous_value ++ List.replicate p '\n' ++ s.line.drop s.expected_indent.toNat } 0).1 < mu s :=
      gvInner_mu_lt _ 0 hc.2
    exact gvOuterF_congr (mu s) _ _ _ (by omega) (by omega)
  · simp only [if_neg hc]

-- ----------------------------------------------------------------- readLine on encoded input

lemma readLine_encoded (b : Bool) (s : Reader) (l : Str) (rest : List Char)
    (hnc : noCR l) (hd : s.input.data = l ++ '\n' :: rest) (he : s.input.eofFlag = false) :
    Reader.readLine b s =
      { s with
          line_number := s.line_number + 1
          input := ⟨rest, false⟩
          line := l
          indent := (parseLine s.ignore_invalid b l).indent
          key := (parseLine s.ignore_invalid b l).key
          value := if (parseLine s.ignore_invalid b l).blank = true then s.value
                   else (parseLine s.ignore_invalid b l).value
          warnings := s.warnings ++ (parseLine s.ignore_invalid b l).warns.map
            (fun m => (((s.line_number + 1 : Nat) : Int), m)) } := by
  have h1 : read_utf8_line s.input = (l, ⟨rest, false⟩) := by
    unfold read_utf8_line
    rw [hd, readLineRaw_append l rest hnc, he]
    rfl
  unfold Reader.readLine
  rw [h1]

-- ----------------------------------------------------------------- readLine congruence

lemma readLine_ext (b : Bool) (s t : Reader)
    (hin : t.input = s.input) (hln : t.line_number = s.line_number)
    (hig : t.ignore_invalid = s.ignore_invalid) (hw : t.warnings = s.warnings)
    (hexp : t.expected_indent = s.expected_indent) (hst : t.state = s.state)
    (hpv : t.previous_value = s.previous_value)
    (hpl : t.previous_line_number = s.previous_line_number)
    (hfv : t.file_app_version = s.file_app_version)
    (hv : t.value = s.value ∨
      (parseLine s.ignore_invalid b (read_utf8_line s.input).1).blank = false) :
    Reader.readLine b t = Reader.readLine b s := by
  cases s with
  | mk ini indi expi sti igi lni plni lii ki vi pvi wi favi =>
    cases t with
    | mk int' indt expt stt igt lnt plnt lit kt vt pvt wt favt =>
      simp only [] at hin hln hig hw hexp hst hpv hpl hfv hv
      subst hin hln hig hw hexp hst hpv hpl hfv
      unfold Reader.readLine
      rcases hv with hveq | hbl
      · subst hveq
        rfl
      · simp only [hbl]
        rfl

-- ----------------------------------------------------------------- specialized readLine forms

lemma readLine_blankLine (s : Reader) (bl : Str) (rest : List Char) (hnc : noCR bl)
    (htr : trim bl = []) (hd : s.input.data = bl ++ '\n' :: rest) (he : s.input.eofFlag = false) :
    Reader.readLine true s =
      { s with line_number := s.line_number + 1, input := ⟨rest, false⟩,
               line := bl, indent := (tabIndent bl : Int), key := ([] : Str) } := by
  rw [readLine_encoded true s bl rest hnc hd he, parseLine_blank s.ignore_invalid true bl htr]
  simp

lemma readLine_true_line (s : Reader) (l : Str) (rest : List Char) (hnc : noCR l)
    (hd : s.input.data = l ++ '\n' :: rest) (he : s.input.eofFlag = false) :
    Reader.readLine true s =
      { s with line_number := s.line_number + 1, input := ⟨rest, false⟩,
               line := l, indent := (tabIndent l : Int),
               key := (parseLine s.ignore_invalid true l).key,
               value := if (parseLine s.ignore_invalid true l).blank = true then s.value
                        else (parseLine s.ignore_invalid true l).value } := by
  rw [readLine_encoded true s l rest hnc hd he]
  simp [parseLine_true_indent, parseLine_true_warns]

lemma skipBlank_id (s : Reader) (h : s.key ≠ []) : skipBlank s = s :=
  skipBlankF_stop s (fun hc => h hc.1) (mu s)

lemma termLine_trim_ne (e : Int) (l : Str) (h : termLine e l) : trim l ≠ [] := by
  intro htr
  have hall := (trim_eq_nil_iff l).mp htr
  rw [h.2.1] at hall
  exact Bool.false_ne_true hall

lemma encodeLines_append (xs ys : List Str) :
    encodeLines (xs ++ ys) = encodeLines xs ++ encodeLines ys := by
  induction xs with
  | nil => simp [encodeLines]
  | cons x xs ih => simp [encodeLines, ih]

-- ----------------------------------------------------------------- the inner collection loop

lemma gvInner_spec : ∀ (bs : List Str) (s : Reader) (nxt : Str) (rest : List Char) (p : Nat),
    (∀ x ∈ bs, blankLowLine s.expected_indent x) →
    noCR nxt → trim nxt ≠ [] →
    s.input.data = encodeLines bs ++ nxt ++ '\n' :: rest →
    s.input.eofFlag = false →
    gvInner s p =
      (Reader.readLine true { s with input := ⟨nxt ++ '\n' :: rest, false⟩,
                                     line_number := s.line_number + bs.length },
       p + (bs.length + 1)) := by
  intro bs
  induction bs with
  | nil =>
    intro s nxt rest p _ hnc hnx hd he
    simp only [encodeLines, List.nil_append] at hd
    have hin : s.input = (⟨nxt ++ '\n' :: rest, false⟩ : InStream) := by
      rw [← hd, ← he]
    have hline : (Reader.readLine true s).line = nxt := by
      rw [readLine_encoded true s nxt rest hnc hd he]
    rw [gvInner_eq]
    simp only []
    rw [if_neg (fun hcc => hnx (hline ▸ hcc.1))]
    simp only [Prod.mk.injEq]
    constructor
    · have hrec : ({ s with input := (⟨nxt ++ '\n' :: rest, false⟩ : InStream), line_number := s.line_number + List.length ([] : List Str) } : Reader) = s := by
        rw [← hin]
        rfl
      rw [hrec]
    · simp
  | cons b bs' ih =>
    intro s nxt rest p hbs hnc hnx hd he
    have hb := hbs b (List.mem_cons_self b bs')
    have hd' : s.input.data = b ++ '\n' :: (encodeLines bs' ++ nxt ++ '\n' :: rest) := by
      rw [hd]
      simp [encodeLines, List.append_assoc]
    have hrd := readLine_blankLine s b (encodeLines bs' ++ nxt ++ '\n' :: rest) hb.1 hb.2.1 hd' he
    rw [gvInner_eq]
    simp only []
    rw [hrd]
    rw [if_pos ⟨hb.2.1, hb.2.2, rfl⟩]
    rw [ih ({ s with line_number := s.line_number + 1, input := (⟨encodeLines bs' ++ nxt ++ '\n' :: rest, false⟩ : InStream), line := b, indent := ((tabIndent b : Nat) : Int), key := ([] : Str) }) nxt rest (p + 1) (fun x hx => hbs x (List.mem_cons_of_mem b hx)) hnc hnx rfl rfl]
    simp only [Prod.mk.injEq]
    constructor
    · exact readLine_ext true _ _ rfl
        (by show s.line_number + 1 + List.length bs' = s.line_number + List.length (b :: bs'); simp [List.length_cons]; omega)
        rfl rfl rfl rfl rfl rfl rfl (Or.inl rfl)
    · simp only [List.length_cons]
      omega

-- ----------------------------------------------------------------- the outer collection loop

lemma gvOuter_stop (u : Reader) (p : Nat)
    (h : ¬(u.expected_indent ≤ u.indent ∧ u.input.eofFlag = false)) : gvOuter u p = u := by
  rw [gvOuter_eq, if_neg h]

lemma read_line_of_encoded (l : Str) (rest : List Char) (h : noCR l) :
    (read_utf8_line (⟨l ++ '\n' :: rest, false⟩ : InStream)).1 = l := by
  unfold read_utf8_line
  rw [readLineRaw_append l rest h]

lemma gvOuter_after_term (u : Reader) (p : Nat) (tl : Str) (more : List Char)
    (htl : termLine u.expected_indent tl)
    (hd : u.input.data = tl ++ '\n' :: more) (he : u.input.eofFlag = false) :
    gvOuter (Reader.readLine true u) p = Reader.readLine true u := by
  have hu : u.input = (⟨tl ++ '\n' :: more, false⟩ : InStream) := by
    rw [← hd, ← he]
  have hrl : (read_utf8_line u.input).1 = tl := by
    rw [hu]
    exact read_line_of_encoded tl more htl.1
  apply gvOuter_stop
  intro hcc
  have hind : (Reader.readLine true u).indent = ((tabIndent tl : Nat) : Int) := by
    show (parseLine u.ignore_invalid true (read_utf8_line u.input).1).indent = _
    rw [hrl, parseLine_true_indent]
  rw [hind, readLine_expected] at hcc
  have hlow := htl.2.2.2
  obtain ⟨h1, _⟩ := hcc
  omega

lemma gvOuter_spec : ∀ (chunks : List (List Str × Str)) (s : Reader) (tb : List Str) (tl : Str)
    (more : List Char) (p : Nat),
    s.expected_indent ≤ s.indent →
    s.input.eofFlag = false →
    (∀ pr ∈ chunks, (∀ x ∈ pr.1, blankLowLine s.expected_indent x) ∧
      contentLine s.expected_indent pr.2) →
    (∀ x ∈ tb, blankLowLine s.expected_indent x) →
    termLine s.expected_indent tl →
    s.input.data = encodeLines (chunkLines chunks ++ tb ++ [tl]) ++ more →
    gvOuter s p =
      Reader.readLine true { s with
          previous_value := s.previous_value ++ List.replicate p '\n' ++
            s.line.drop s.expected_indent.toNat ++ chunkText s.expected_indent.toNat chunks
          input := ⟨tl ++ '\n' :: more, false⟩
          line_number := s.line_number + (chunkLines chunks).length + tb.length } := by
  intro chunks
  induction chunks with
  | nil =>
    intro s tb tl more p hci he hch htb htl hd
    have htr := termLine_trim_ne _ _ htl
    simp only [chunkLines, List.nil_append] at hd
    have hd2 : s.input.data = encodeLines tb ++ tl ++ '\n' :: more := by
      rw [hd, encodeLines_append]
      simp [encodeLines]
    rw [gvOuter_eq, if_pos ⟨hci, he⟩]
    simp only []
    set t1 : Reader := { s with previous_value := s.previous_value ++ List.replicate p '\n' ++ s.line.drop s.expected_indent.toNat } with ht1
    have hspec := gvInner_spec tb t1 tl more 0 htb htl.1 htr hd2 he
    have h1 : (gvInner t1 0).1 = Reader.readLine true { t1 with input := (⟨tl ++ '\n' :: more, false⟩ : InStream), line_number := t1.line_number + List.length tb } := by
      rw [hspec]
    have h2 : (gvInner t1 0).2 = 0 + (List.length tb + 1) := by
      rw [hspec]
    rw [h1, h2]
    set t2 : Reader := { t1 with input := (⟨tl ++ '\n' :: more, false⟩ : InStream), line_number := t1.line_number + List.length tb } with ht2
    rw [gvOuter_after_term t2 (0 + (List.length tb + 1)) tl more htl rfl rfl]
    refine readLine_ext true _ _ ?_ ?_ ?_ ?_ ?_ ?_ ?_ ?_ ?_ ?_
    · rfl
    · simp [ht1, ht2, chunkLines]
    · rfl
    · rfl
    · rfl
    · rfl
    · simp [ht1, ht2, chunkText]
    · rfl
    · rfl
    · exact Or.inl rfl
  | cons pr chunks' ih =>
    obtain ⟨bsc, c⟩ := pr
    intro s tb tl more p hci he hch htb htl hd
    have hpr := hch (bsc, c) (List.mem_cons_self _ _)
    have hch' : ∀ q ∈ chunks', (∀ x ∈ q.1, blankLowLine s.expected_indent x) ∧
        contentLine s.expected_indent q.2 := fun q hq => hch q (List.mem_cons_of_mem _ hq)
    have hd2 : s.input.data =
        encodeLines bsc ++ c ++ '\n' :: (encodeLines (chunkLines chunks' ++ tb ++ [tl]) ++ more) := by
      rw [hd]
      simp [chunkLines, encodeLines_append, encodeLines, List.append_assoc]
    rw [gvOuter_eq, if_pos ⟨hci, he⟩]
    simp only []
    set t1 : Reader := { s with previous_value := s.previous_value ++ List.replicate p '\n' ++ s.line.drop s.expected_indent.toNat } with ht1
    have hspec := gvInner_spec bsc t1 c (encodeLines (chunkLines chunks' ++ tb ++ [tl]) ++ more) 0
      hpr.1 hpr.2.1 hpr.2.2.1 hd2 he
    have h1 : (gvInner t1 0).1 = Reader.readLine true { t1 with input := (⟨c ++ '\n' :: (encodeLines (chunkLines chunks' ++ tb ++ [tl]) ++ more), false⟩ : InStream), line_number := t1.line_number + List.length bsc } := by
      rw [hspec]
    have h2 : (gvInner t1 0).2 = 0 + (List.length bsc + 1) := by
      rw [hspec]
    rw [h1, h2]
    set t2 : Reader := { t1 with input := (⟨c ++ '\n' :: (encodeLines (chunkLines chunks' ++ tb ++ [tl]) ++ more), false⟩ : InStream), line_number := t1.line_number + List.length bsc } with ht2
    have hrd := readLine_true_line t2 c (encodeLines (chunkLines chunks' ++ tb ++ [tl]) ++ more)
      hpr.2.1 rfl rfl
    rw [hrd]
    set t3 : Reader := { t2 with line_number := t2.line_number + 1, input := (⟨encodeLines (chunkLines chunks' ++ tb ++ [tl]) ++ more, false⟩ : InStream), line := c, indent := ((tabIndent c : Nat) : Int), key := (parseLine t2.ignore_invalid true c).key, value := if (parseLine t2.ignore_invalid true c).blank = true then t2.value else (parseLine t2.ignore_invalid true c).value } with ht3
    have hih := ih t3 tb tl more (0 + (List.length bsc + 1))
      (by show s.expected_indent ≤ ((tabIndent c : Nat) : Int); exact hpr.2.2.2)
      rfl hch' htb htl rfl
    rw [hih]
    refine readLine_ext true _ _ ?_ ?_ ?_ ?_ ?_ ?_ ?_ ?_ ?_ ?_
    · rfl
    · simp [ht1, ht2, ht3, chunkLines]
      omega
    · rfl
    · rfl
    · rfl
    · rfl
    · simp [ht1, ht2, ht3, chunkText, List.append_assoc]
    · rfl
    · rfl
    · refine Or.inr ?_
      have hrl := read_line_of_encoded tl more htl.1
      show (parseLine s.ignore_invalid true (read_utf8_line (⟨tl ++ '\n' :: more, false⟩ : InStream)).1).blank = false
      rw [hrl]
      exact parseLine_notblank s.ignore_invalid true tl htl.2.1 htl.2.2.1

/-- C2: a multi-line value (a key whose raw value is empty) consisting of a
first non-blank continuation line, then chunks of blank under-indented interior
lines each followed by another non-blank continuation line, then trailing blank
lines, then a dedented non-blank terminator: `getValue` returns the
continuation lines with the expected indentation stripped, joined by single
newlines (one extra newline per buffered blank interior line), with no trailing
newline, and with the trailing blank lines dropped. -/
theorem claim_C2 (s : Reader) (c0 : Str) (chunks : List (List Str × Str)) (tb : List Str)
    (tl : Str) (more : List Char)
    (h1 : s.state = RState.ENTERED) (h2 : s.value = [])
    (hc0 : contentLine s.expected_indent c0)
    (hch : ∀ pr ∈ chunks, (∀ x ∈ pr.1, blankLowLine s.expected_indent x) ∧
      contentLine s.expected_indent pr.2)
    (htb : ∀ x ∈ tb, blankLowLine s.expected_indent x)
    (htl : termLine s.expected_indent tl)
    (hd : s.input.data = encodeLines (c0 :: (chunkLines chunks ++ tb ++ [tl])) ++ more)
    (he : s.input.eofFlag = false) :
    (Reader.getValue s).2 =
      c0.drop s.expected_indent.toNat ++ chunkText s.expected_indent.toNat chunks := by
  have hd0 : s.input.data = c0 ++ '\n' :: (encodeLines (chunkLines chunks ++ tb ++ [tl]) ++ more) := by
    rw [hd]
    simp [encodeLines, List.append_assoc]
  simp only [Reader.getValue]
  rw [if_neg (by simp [h1]), if_pos h2]
  simp only []
  set u0 : Reader := { s with previous_value := ([] : Str) } with hu0
  have hrd1 := readLine_true_line u0 c0 (encodeLines (chunkLines chunks ++ tb ++ [tl]) ++ more) hc0.1 hd0 he
  rw [hrd1]
  set t1 : Reader := { u0 with line_number := u0.line_number + 1, input := (⟨encodeLines (chunkLines chunks ++ tb ++ [tl]) ++ more, false⟩ : InStream), line := c0, indent := ((tabIndent c0 : Nat) : Int), key := (parseLine u0.ignore_invalid true c0).key, value := if (parseLine u0.ignore_invalid true c0).blank = true then u0.value else (parseLine u0.ignore_invalid true c0).value } with ht1
  set t2 : Reader := { t1 with previous_line_number := t1.line_number } with ht2
  have hgo := gvOuter_spec chunks t2 tb tl more 0
    (by show s.expected_indent ≤ ((tabIndent c0 : Nat) : Int); exact hc0.2.2)
    rfl hch htb htl rfl
  rw [hgo]
  set t4 : Reader := { t2 with previous_value := t2.previous_value ++ List.replicate 0 '\n' ++ t2.line.drop t2.expected_indent.toNat ++ chunkText t2.expected_indent.toNat chunks, input := (⟨tl ++ '\n' :: more, false⟩ : InStream), line_number := t2.line_number + (chunkLines chunks).length + tb.length } with ht4
  have hrd2 := readLine_true_line t4 tl more htl.1 rfl rfl
  rw [hrd2]
  set t5 : Reader := { t4 with line_number := t4.line_number + 1, input := (⟨more, false⟩ : InStream), line := tl, indent := ((tabIndent tl : Nat) : Int), key := (parseLine t4.ignore_invalid true tl).key, value := if (parseLine t4.ignore_invalid true tl).blank = true then t4.value else (parseLine t4.ignore_invalid true tl).value } with ht5
  have hkey : ({ t5 with state := RState.HANDLED } : Reader).key ≠ [] := by
    show (parseLine s.ignore_invalid true tl).key ≠ []
    exact parseLine_key_ne s.ignore_invalid tl htl.2.1 htl.2.2.1
  rw [skipBlank_id { t5 with state := RState.HANDLED } hkey]
  have hne1 : ¬(({ t5 with state := RState.HANDLED } : Reader).key = [] ∧
      ({ t5 with state := RState.HANDLED } : Reader).input.eofFlag = true) :=
    fun hcc => hkey hcc.1
  rw [if_neg hne1]
  have hne2 : ¬(({ t5 with state := RState.HANDLED } : Reader).expected_indent ≤
      ({ t5 with state := RState.HANDLED } : Reader).indent) := by
    show ¬(s.expected_indent ≤ ((tabIndent tl : Nat) : Int))
    have := htl.2.2.2
    omega
  rw [if_neg hne2]
  show ({ t5 with state := RState.HANDLED } : Reader).previous_value = _
  simp [ht5, ht4, ht2, ht1, hu0]

-- ----------------------------------------------------------------- small handler lemmas

lemma getValue_unhandled (s : Reader) (h : s.state = RState.UNHANDLED) :
    Reader.getValue s = ({ s with state := RState.HANDLED }, s.previous_value) := by
  unfold Reader.getValue
  rw [if_pos h]

lemma warning_len (s : Reader) (m : Str) (d : Int) (p : Bool) :
    (Reader.warning s m d p).warnings.length = s.warnings.length + 1 := by
  simp [Reader.warning]

lemma warning_warnings (s : Reader) (m : Str) :
    (Reader.warning s m 0 false).warnings = s.warnings ++ [((s.line_number : Int), m)] := by
  simp [Reader.warning]

lemma warning_expected (s : Reader) (m : Str) (d : Int) (p : Bool) :
    (Reader.warning s m d p).expected_indent = s.expected_indent := rfl

lemma warning_input (s : Reader) (m : Str) (d : Int) (p : Bool) :
    (Reader.warning s m d p).input = s.input := rfl

lemma strtol10_noDigits (v : Str) (h : (strtol10 v).2.1 = false) : (strtol10 v).1 = 0 := by
  simp only [strtol10, decide_eq_false_iff_not, ne_eq, not_not] at h ⊢
  rw [h]
  simp [digitsToNat]

-- ----------------------------------------------------------------- a base state for witnesses

/-- A closed reader state used as the starting point of concrete witnesses. -/
def baseR : Reader where
  input := ⟨[], false⟩
  indent := 0
  expected_indent := 0
  state := RState.HANDLED
  ignore_invalid := false
  line_number := 0
  previous_line_number := 0
  line := []
  key := []
  value := []
  previous_value := []
  warnings := []
  file_app_version := 0

-- ----------------------------------------------------------------- C10

/-- C10: when enum decoding ends unmatched and no candidate was ever offered
(the remembered first candidate is null), both the non-strict completion path
(`warnIfNotDone`) and the strict one (`errorIfNotDone`) raise the internal
error, not an "unrecognized value" warning and not a fatal parse error. -/
theorem claim_C10 (er : EnumReader) (s : Reader) (h1 : er.done = false) (h2 : er.first = none) :
    EnumReader.warnIfNotDone er s = Except.error (ReadError.internalError noFirstMsg) ∧
    EnumReader.errorIfNotDone er = Except.error (ReadError.internalError noFirstMsg) := by
  unfold EnumReader.warnIfNotDone EnumReader.errorIfNotDone EnumReader.notDoneErrorMessage
  rw [h1, h2]
  exact ⟨rfl, rfl⟩

def purpleTok : Str := "purple".data

def erC10 : EnumReader := ⟨false, none, purpleTok⟩

theorem claim_C10_witness :
    erC10.done = false ∧
    EnumReader.warnIfNotDone erC10 baseR =
      Except.error (ReadError.internalError noFirstMsg) ∧
    EnumReader.errorIfNotDone erC10 =
      Except.error (ReadError.internalError noFirstMsg) :=
  ⟨rfl, (claim_C10 erC10 baseR rfl rfl).1, (claim_C10 erC10 baseR rfl rfl).2⟩

-- ----------------------------------------------------------------- C8

/-- The spec's literal point form `(x,y)`, stated from the claim's words for
comparison with the code's behavior: an opening parenthesis, a floating-point
number, a comma, a floating-point number, a closing parenthesis, and nothing
else. -/
def isPointLiteralForm (l : Str) : Bool :=
  match l with
  | '(' :: r =>
    match scanLf r with
    | Except.ok r2 =>
      match r2 with
      | ',' :: r3 =>
        match scanLf r3 with
        | Except.ok r4 => r4 == [')']
        | Except.error _ => false
      | _ => false
    | Except.error _ => false
  | _ => false

def parenOne : Str := "(1".data

def wC8 : Reader := { baseR with state := RState.UNHANDLED, previous_value := parenOne }

/-- Whether a handler result is a success (no error raised). -/
def exceptOk : Except ReadError Reader → Bool
  | Except.ok _ => true
  | Except.error _ => false

/-- C8 counterexample: the raw value `(1` does not match the literal form
`(x,y)`, yet the point handler raises no fatal error, because `wxSscanf`
completed one conversion and `!1` is false. -/
theorem claim_C8_counterexample :
    isPointLiteralForm parenOne = false ∧
    exceptOk (Reader.handle_vector2d wC8) = true := by
  decide

/-- C8 amended: date-time coercion raises a fatal parse error exactly when the
value fails to parse or leaves unparsed trailing characters (as claimed), but
2D-point coercion raises a fatal parse error only when the scan completes zero
conversions — a value matching a strict prefix of the form, such as `(1`, is
accepted without error. -/
theorem claim_C8 (pd : Str → Option Nat) (s : Reader) (h : s.state = RState.UNHANDLED) :
    ((∃ err, Reader.handle_datetime pd s = Except.error err) ↔
      (pd s.previous_value = none ∨
        ∃ n, pd s.previous_value = some n ∧ n ≠ s.previous_value.length)) ∧
    ((∃ err, Reader.handle_vector2d s = Except.error err) ↔
      sscanfPointCount s.previous_value = 0) := by
  have hg := getValue_unhandled s h
  constructor
  · unfold Reader.handle_datetime
    rw [hg]
    cases hpd : pd s.previous_value with
    | none =>
      simp [hpd]
    | some n =>
      by_cases hn : n = s.previous_value.length
      · subst hn
        simp [hpd]
      · simp [hpd, hn]
  · unfold Reader.handle_vector2d
    rw [hg]
    by_cases hsc : sscanfPointCount s.previous_value = 0
    · simp [hsc]
    · simp [hsc]

theorem claim_C8_witness :
    wC8.state = RState.UNHANDLED ∧
    (∃ err, Reader.handle_datetime (fun _ => Option.none) wC8 = Except.error err) ∧
    sscanfPointCount wC8.previous_value ≠ 0 :=
  ⟨rfl, (claim_C8 (fun _ => Option.none) wC8 rfl).1.mpr (Or.inl rfl), by decide⟩

-- ----------------------------------------------------------------- C6

lemma handle_bool_unhandled (s : Reader) (b : Bool) (h : s.state = RState.UNHANDLED) :
    Reader.handle_bool s b =
      (if s.previous_value = "true".data ∨ s.previous_value = "1".data ∨
          s.previous_value = "yes".data
       then ({ s with state := RState.HANDLED }, true)
       else if s.previous_value = "false".data ∨ s.previous_value = "0".data ∨
          s.previous_value = "no".data
       then ({ s with state := RState.HANDLED }, false)
       else (Reader.warnDefault { s with state := RState.HANDLED }
          (boolWarnMsg s.previous_value), b)) := by
  unfold Reader.handle_bool
  rw [getValue_unhandled s h]

/-- C6: boolean coercion maps exactly the case-sensitive tokens true/1/yes to
true and false/0/no to false without warning; every other token records one
warning and leaves the destination boolean at its prior value. -/
theorem claim_C6 (s : Reader) (b : Bool) (h : s.state = RState.UNHANDLED) :
    ((s.previous_value = "true".data ∨ s.previous_value = "1".data ∨
        s.previous_value = "yes".data) →
      (Reader.handle_bool s b).2 = true ∧ (Reader.handle_bool s b).1.warnings = s.warnings) ∧
    ((s.previous_value = "false".data ∨ s.previous_value = "0".data ∨
        s.previous_value = "no".data) →
      (Reader.handle_bool s b).2 = false ∧ (Reader.handle_bool s b).1.warnings = s.warnings) ∧
    (¬(s.previous_value = "true".data ∨ s.previous_value = "1".data ∨
        s.previous_value = "yes".data ∨ s.previous_value = "false".data ∨
        s.previous_value = "0".data ∨ s.previous_value = "no".data) →
      (Reader.handle_bool s b).2 = b ∧
      (Reader.handle_bool s b).1.warnings.length = s.warnings.length + 1) := by
  rw [handle_bool_unhandled s b h]
  refine ⟨?_, ?_, ?_⟩
  · intro hv
    rw [if_pos hv]
    exact ⟨rfl, rfl⟩
  · intro hv
    have hne : ¬(s.previous_value = "true".data ∨ s.previous_value = "1".data ∨
        s.previous_value = "yes".data) := by
      rcases hv with hv | hv | hv <;> rw [hv] <;> decide
    rw [if_neg hne, if_pos hv]
    exact ⟨rfl, rfl⟩
  · intro hv
    rw [if_neg (fun hcc => hv (by tauto)), if_neg (fun hcc => hv (by tauto))]
    refine ⟨rfl, ?_⟩
    exact warning_len _ _ _ _

def tokMaybe : Str := "maybe".data

def wC6 : Reader := { baseR with state := RState.UNHANDLED, previous_value := tokMaybe }

theorem claim_C6_witness :
    wC6.previous_value ≠ "true".data ∧
    (Reader.handle_bool wC6 true).2 = true ∧
    (Reader.handle_bool wC6 false).2 = false ∧
    (Reader.handle_bool wC6 false).1.warnings.length = wC6.warnings.length + 1 :=
  ⟨by decide,
   ((claim_C6 wC6 true rfl).2.2 (by decide)).1,
   ((claim_C6 wC6 false rfl).2.2 (by decide)).1,
   ((claim_C6 wC6 false rfl).2.2 (by decide)).2⟩

-- ----------------------------------------------------------------- C5

/-- C5: unsigned-integer coercion of a raw value that parses as a negative
base-10 integer records one warning and stores the absolute value of the
parsed integer (for magnitudes representable in the 32-bit destination); a raw
value that does not parse at all (no digits consumed) records one warning and
stores 0. -/
lemma handle_uint_unhandled (s : Reader) (h : s.state = RState.UNHANDLED) :
    Reader.handle_uint s =
      (if (wxToLong s.previous_value).1 = false
       then Reader.warnDefault { s with state := RState.HANDLED } (uintWarnMsg s.previous_value)
       else if (wxToLong s.previous_value).2 < 0
       then Reader.warnDefault { s with state := RState.HANDLED } uintNegWarnMsg
       else { s with state := RState.HANDLED },
       (wxToLong s.previous_value).2.natAbs % 2 ^ 32) := by
  unfold Reader.handle_uint
  rw [getValue_unhandled s h]

theorem claim_C5 (s : Reader) (h : s.state = RState.UNHANDLED) :
    (∀ l : Int, wxToLong s.previous_value = (true, l) → l < 0 → l.natAbs < 2 ^ 32 →
      (Reader.handle_uint s).2 = l.natAbs ∧
      (Reader.handle_uint s).1.warnings.length = s.warnings.length + 1) ∧
    ((strtol10 s.previous_value).2.1 = false →
      (Reader.handle_uint s).2 = 0 ∧
      (Reader.handle_uint s).1.warnings.length = s.warnings.length + 1) := by
  rw [handle_uint_unhandled s h]
  constructor
  · intro l hl hneg habs
    rw [hl]
    rw [if_neg (by simp), if_pos (show ((true, l) : Bool × Int).2 < 0 from hneg)]
    constructor
    · show l.natAbs % 2 ^ 32 = l.natAbs
      exact Nat.mod_eq_of_lt habs
    · exact warning_len _ _ _ _
  · intro hnd
    have hv0 := strtol10_noDigits s.previous_value hnd
    have hfalse : (wxToLong s.previous_value).1 = false := by
      unfold wxToLong
      simp [hnd]
    have hval : (wxToLong s.previous_value).2 = 0 := by
      unfold wxToLong
      simp only []
      exact hv0
    rw [if_pos hfalse]
    constructor
    · show (wxToLong s.previous_value).2.natAbs % 2 ^ 32 = 0
      rw [hval]
      rfl
    · exact warning_len _ _ _ _

def negFive : Str := "-5".data
def tokAbc : Str := "abc".data

def wC5 : Reader := { baseR with state := RState.UNHANDLED, previous_value := negFive }

def wC5b : Reader := { baseR with state := RState.UNHANDLED, previous_value := tokAbc }

theorem claim_C5_witness :
    wxToLong negFive = (true, -5) ∧
    (Reader.handle_uint wC5).2 = 5 ∧
    (Reader.handle_uint wC5).1.warnings.length = wC5.warnings.length + 1 ∧
    (Reader.handle_uint wC5b).2 = 0 ∧
    (Reader.handle_uint wC5b).1.warnings.length = wC5b.warnings.length + 1 :=
  ⟨by decide,
   (((claim_C5 wC5 rfl).1 (-5) (by decide) (by decide) (by decide)).1).trans (by decide),
   ((claim_C5 wC5 rfl).1 (-5) (by decide) (by decide) (by decide)).2,
   ((claim_C5 wC5b rfl).2 (by decide)).1,
   ((claim_C5 wC5b rfl).2 (by decide)).2⟩

-- ----------------------------------------------------------------- C4

/-- C4 counterexample: on the stream EF 41 the scan fails (no BOM), but the
stream is not left as if nothing had been consumed — only the 41 byte is
pushed back and the EF byte is lost. -/
theorem claim_C4_counterexample :
    (eat_utf8_bom ⟨[0xEF, 0x41], false⟩).1 = false ∧
    (eat_utf8_bom ⟨[0xEF, 0x41], false⟩).2.data ≠ [0xEF, 0x41] := by
  decide

/-- C4 amended: a full EF BB BF byte-order mark at stream start is consumed;
otherwise only the last byte read is pushed back (when it was not EOF), so any
matching proper prefix of the mark (EF, or EF BB) remains consumed and an
EOF hit while checking sets the stream's eof state. -/
theorem claim_C4 (r : List Nat) (b1 b2 b3 : Nat) :
    (eat_utf8_bom ⟨0xEF :: 0xBB :: 0xBF :: r, false⟩ = (true, ⟨r, false⟩)) ∧
    (b1 ≠ 0xEF → eat_utf8_bom ⟨b1 :: r, false⟩ = (false, ⟨b1 :: r, false⟩)) ∧
    (b2 ≠ 0xBB → eat_utf8_bom ⟨0xEF :: b2 :: r, false⟩ = (false, ⟨b2 :: r, false⟩)) ∧
    (b3 ≠ 0xBF → eat_utf8_bom ⟨0xEF :: 0xBB :: b3 :: r, false⟩ = (false, ⟨b3 :: r, false⟩)) ∧
    (eat_utf8_bom ⟨[], false⟩ = (false, ⟨[], true⟩)) ∧
    (eat_utf8_bom ⟨[0xEF], false⟩ = (false, ⟨[], true⟩)) ∧
    (eat_utf8_bom ⟨[0xEF, 0xBB], false⟩ = (false, ⟨[], true⟩)) := by
  refine ⟨?_, ?_, ?_, ?_, ?_, ?_, ?_⟩
  · simp [eat_utf8_bom, getB]
  · intro hb
    have h1 : ¬((b1 : Int) = 0xEF) := by omega
    have h2 : ¬((b1 : Int) = -1) := by omega
    simp [eat_utf8_bom, getB, ungetB, h1, h2]
  · intro hb
    have h1 : ¬((b2 : Int) = 0xBB) := by omega
    have h2 : ¬((b2 : Int) = -1) := by omega
    simp [eat_utf8_bom, getB, ungetB, h1, h2]
  · intro hb
    have h1 : ¬((b3 : Int) = 0xBF) := by omega
    have h2 : ¬((b3 : Int) = -1) := by omega
    simp [eat_utf8_bom, getB, ungetB, h1, h2]
  · decide
  · decide
  · decide

theorem claim_C4_witness :
    (0x41 : Nat) ≠ 0xBB ∧
    eat_utf8_bom ⟨[0xEF, 0x41, 0x7A], false⟩ = (false, ⟨[0x41, 0x7A], false⟩) ∧
    eat_utf8_bom ⟨[0xEF, 0xBB, 0xBF, 0x10], false⟩ = (true, ⟨[0x10], false⟩) :=
  ⟨by decide,
   (claim_C4 [0x7A] 0 0x41 0).2.2.1 (by decide),
   (claim_C4 [0x10] 0 0 0).1⟩

-- ----------------------------------------------------------------- C1

def fooKey : Str := "foo".data
def barData : List Char := "bar: 2\n".data
def oneVal : Str := "1".data

def wC1 : Reader :=
  { baseR with input := ⟨barData, false⟩, key := fooKey, value := oneVal,
               file_app_version := 1 }

/-- C1 counterexample: with document version 1 and threshold 2 (version below
the threshold), `handleIgnore` does not leave the reader untouched — it enters
and skips the named block, consuming input — contradicting the claim that a
version below the threshold consumes nothing (and hence also its converse
direction). -/
theorem claim_C1_counterexample :
    wC1.file_app_version < 2 ∧
    (Reader.handleIgnore wC1 2 fooKey).line_number ≠ wC1.line_number := by
  decide

-- block entry/exit effect on the expected nesting level

lemma enterAnyBlock_expected (s : Reader) :
    ((Reader.enterAnyBlock s).1 = true →
      (Reader.enterAnyBlock s).2.expected_indent = s.expected_indent + 1) ∧
    ((Reader.enterAnyBlock s).1 = false →
      (Reader.enterAnyBlock s).2.expected_indent = s.expected_indent) := by
  have hmain : ∀ u : Reader, u.expected_indent = s.expected_indent →
      ((if u.indent ≠ u.expected_indent then (false, u)
        else (true, { u with state := RState.ENTERED,
                             expected_indent := u.expected_indent + 1 })).1 = true →
        (if u.indent ≠ u.expected_indent then (false, u)
         else (true, { u with state := RState.ENTERED,
                              expected_indent := u.expected_indent + 1 })).2.expected_indent =
          s.expected_indent + 1) ∧
      ((if u.indent ≠ u.expected_indent then (false, u)
        else (true, { u with state := RState.ENTERED,
                             expected_indent := u.expected_indent + 1 })).1 = false →
        (if u.indent ≠ u.expected_indent then (false, u)
         else (true, { u with state := RState.ENTERED,
                              expected_indent := u.expected_indent + 1 })).2.expected_indent =
          s.expected_indent) := by
    intro u hue
    by_cases hind : u.indent ≠ u.expected_indent
    · rw [if_pos hind]
      exact ⟨fun hcc => by simp at hcc, fun _ => hue⟩
    · rw [if_neg hind]
      refine ⟨fun _ => ?_, fun hcc => by simp at hcc⟩
      show u.expected_indent + 1 = s.expected_indent + 1
      rw [hue]
  exact hmain (if s.state = RState.ENTERED then Reader.moveNext s else s)
    (by split
        · exact moveNext_expected s
        · rfl)

lemma enterBlock_expected (s : Reader) (name : Str) :
    ((Reader.enterBlock s name).1 = true →
      (Reader.enterBlock s name).2.expected_indent = s.expected_indent + 1) ∧
    ((Reader.enterBlock s name).1 = false →
      (Reader.enterBlock s name).2.expected_indent = s.expected_indent) := by
  have hmain : ∀ u : Reader, u.expected_indent = s.expected_indent →
      ((if u.indent ≠ u.expected_indent then (false, u)
        else if u.key = name then
          (true, { u with state := RState.ENTERED,
                          expected_indent := u.expected_indent + 1 })
        else (false, u)).1 = true →
        (if u.indent ≠ u.expected_indent then (false, u)
         else if u.key = name then
           (true, { u with state := RState.ENTERED,
                           expected_indent := u.expected_indent + 1 })
         else (false, u)).2.expected_indent = s.expected_indent + 1) ∧
      ((if u.indent ≠ u.expected_indent then (false, u)
        else if u.key = name then
          (true, { u with state := RState.ENTERED,
                          expected_indent := u.expected_indent + 1 })
        else (false, u)).1 = false →
        (if u.indent ≠ u.expected_indent then (false, u)
         else if u.key = name then
           (true, { u with state := RState.ENTERED,
                           expected_indent := u.expected_indent + 1 })
         else (false, u)).2.expected_indent = s.expected_indent) := by
    intro u hue
    by_cases hind : u.indent ≠ u.expected_indent
    · rw [if_pos hind]
      exact ⟨fun hcc => by simp at hcc, fun _ => hue⟩
    · rw [if_neg hind]
      by_cases hkey : u.key = name
      · rw [if_pos hkey]
        refine ⟨fun _ => ?_, fun hcc => by simp at hcc⟩
        show u.expected_indent + 1 = s.expected_indent + 1
        rw [hue]
      · rw [if_neg hkey]
        exact ⟨fun hcc => by simp at hcc, fun _ => hue⟩
  exact hmain (if s.state = RState.ENTERED then Reader.moveNext s else s)
    (by split
        · exact moveNext_expected s
        · rfl)

lemma exitBlock_expected (s : Reader) :
    (Reader.exitBlock s).expected_indent = s.expected_indent - 1 := by
  simp only [Reader.exitBlock, skipDeeper]
  split
  · simp [skipDeeperF_expected, moveNext_expected]
  · simp [skipDeeperF_expected]

/-- C1 amended: `handleIgnore(N, a)` enters and immediately exits the named
block exactly when the document's declared version is strictly below N; when
the version is at or after N it consumes nothing.  In both cases the expected
nesting level is unchanged. -/
theorem claim_C1 (s : Reader) (n : Int) (a : Str) :
    (n ≤ s.file_app_version → Reader.handleIgnore s n a = s) ∧
    (s.file_app_version < n →
      Reader.handleIgnore s n a =
        (if (Reader.enterBlock s a).1 = true then Reader.exitBlock (Reader.enterBlock s a).2
         else (Reader.enterBlock s a).2)) ∧
    (Reader.handleIgnore s n a).expected_indent = s.expected_indent := by
  refine ⟨?_, ?_, ?_⟩
  · intro hge
    unfold Reader.handleIgnore
    rw [if_neg (by omega)]
  · intro hlt
    unfold Reader.handleIgnore
    rw [if_pos hlt]
  · unfold Reader.handleIgnore
    split
    · simp only []
      split
      · next hb =>
        rw [exitBlock_expected, (enterBlock_expected s a).1 hb]
        omega
      · next hb =>
        exact (enterBlock_expected s a).2 (Bool.not_eq_true _ ▸ hb)
    · rfl

def wC1b : Reader := { baseR with file_app_version := 5 }

theorem claim_C1_witness :
    (2 : Int) ≤ wC1b.file_app_version ∧
    Reader.handleIgnore wC1b 2 fooKey = wC1b ∧
    (Reader.handleIgnore wC1 2 fooKey).expected_indent = wC1.expected_indent :=
  ⟨by decide, (claim_C1 wC1b 2 fooKey).1 (by decide), (claim_C1 wC1 2 fooKey).2.2⟩

-- ----------------------------------------------------------------- C3

/-- C3: the expected nesting level: every successful `enterBlock`/`enterAnyBlock`
increments it by exactly 1 and a failed entry leaves it unchanged; `exitBlock`
(valid only when the level is positive) decrements it by exactly 1, keeping it
non-negative; and a balanced `enterBlock`/`exitBlock` pair restores the
pre-entry value. -/
theorem claim_C3 (s : Reader) (name : Str) :
    ((Reader.enterAnyBlock s).1 = true →
      (Reader.enterAnyBlock s).2.expected_indent = s.expected_indent + 1) ∧
    ((Reader.enterAnyBlock s).1 = false →
      (Reader.enterAnyBlock s).2.expected_indent = s.expected_indent) ∧
    ((Reader.enterBlock s name).1 = true →
      (Reader.enterBlock s name).2.expected_indent = s.expected_indent + 1) ∧
    ((Reader.enterBlock s name).1 = false →
      (Reader.enterBlock s name).2.expected_indent = s.expected_indent) ∧
    (0 < s.expected_indent →
      (Reader.exitBlock s).expected_indent = s.expected_indent - 1 ∧
      0 ≤ (Reader.exitBlock s).expected_indent) ∧
    ((Reader.enterBlock s name).1 = true →
      (Reader.exitBlock (Reader.enterBlock s name).2).expected_indent = s.expected_indent) := by
  refine ⟨(enterAnyBlock_expected s).1, (enterAnyBlock_expected s).2,
    (enterBlock_expected s name).1, (enterBlock_expected s name).2, ?_, ?_⟩
  · intro hpos
    constructor
    · exact exitBlock_expected s
    · rw [exitBlock_expected]
      omega
  · intro hb
    rw [exitBlock_expected, (enterBlock_expected s name).1 hb]
    omega

def wC3 : Reader := { baseR with input := ⟨barData, false⟩, key := fooKey, value := oneVal }

theorem claim_C3_witness :
    (Reader.enterBlock wC3 fooKey).1 = true ∧
    (Reader.enterBlock wC3 fooKey).2.expected_indent = wC3.expected_indent + 1 ∧
    (Reader.exitBlock (Reader.enterBlock wC3 fooKey).2).expected_indent = wC3.expected_indent :=
  ⟨by decide, (claim_C3 wC3 fooKey).2.2.1 (by decide), (claim_C3 wC3 fooKey).2.2.2.2.2 (by decide)⟩

-- ----------------------------------------------------------------- C7

/-- C7: outside leniency mode, `unknownKey` on a line whose indent is at or
above the expected nesting level records an "Unexpected key" warning and
advances past the key and all deeper-indented lines (leaving the cursor at an
indent not exceeding the expected level, which is itself unchanged, and
consuming input when any remains); on a line whose indent is below the
expected level it records no warning and consumes nothing — the state is
returned entirely unchanged. -/
theorem claim_C7 (s : Reader) (hig : s.ignore_invalid = false) (hexp : 0 ≤ s.expected_indent) :
    (s.indent < s.expected_indent → Reader.unknownKey s = s) ∧
    (s.expected_indent ≤ s.indent →
      (∃ t, (Reader.unknownKey s).warnings =
        s.warnings ++ ((s.line_number : Int), unexpectedKeyMsg s.key) :: t) ∧
      (Reader.unknownKey s).expected_indent = s.expected_indent ∧
      (Reader.unknownKey s).indent ≤ s.expected_indent ∧
      (s.input.eofFlag = false → mu (Reader.unknownKey s) < mu s)) := by
  constructor
  · intro hlt
    unfold Reader.unknownKey
    rw [if_neg (by simp [hig]), if_neg (by omega)]
  · intro hge
    unfold Reader.unknownKey
    rw [if_neg (by simp [hig]), if_pos hge]
    set W := Reader.warning s (unexpectedKeyMsg s.key) 0 false with hW
    have hWexp : W.expected_indent = s.expected_indent := by
      rw [hW]
      exact warning_expected s _ 0 false
    have hexp2 : (skipDeeper (Reader.moveNext W)).expected_indent = s.expected_indent := by
      unfold skipDeeper
      rw [skipDeeperF_expected, moveNext_expected, hWexp]
    refine ⟨?_, hexp2, ?_, ?_⟩
    · obtain ⟨t1, ht1⟩ := moveNext_warn_mono W
      obtain ⟨t2, ht2⟩ := skipDeeperF_warn_mono (mu (Reader.moveNext W) + 2) (Reader.moveNext W)
      refine ⟨t1 ++ t2, ?_⟩
      show (skipDeeper (Reader.moveNext W)).warnings = _
      unfold skipDeeper
      rw [ht2, ht1, hW, warning_warnings]
      simp
    · have hpost := skipDeeper_post (mu (Reader.moveNext W)) (Reader.moveNext W) (le_refl _)
        (by rw [moveNext_expected, hWexp]; omega)
      rw [hexp2] at hpost
      exact hpost
    · intro hef
      have hWin : W.input = s.input := by
        rw [hW]
        exact warning_input s _ 0 false
      have h1 : mu (Reader.moveNext W) < mu W := moveNext_mu_lt W (by rw [hWin]; exact hef)
      have h2 : mu (skipDeeper (Reader.moveNext W)) ≤ mu (Reader.moveNext W) := by
        unfold skipDeeper
        exact skipDeeperF_mu_le _ _
      have hmuW : mu W = mu s := by
        unfold mu
        rw [hWin]
      omega

def badKey : Str := "bad".data
def c7data : List Char := "\tx: 1\ny: 2\n".data

def wC7 : Reader := { baseR with input := ⟨c7data, false⟩, key := badKey, line_number := 3 }

theorem claim_C7_witness :
    wC7.expected_indent ≤ wC7.indent ∧
    (∃ t, (Reader.unknownKey wC7).warnings =
      wC7.warnings ++ ((wC7.line_number : Int), unexpectedKeyMsg wC7.key) :: t) ∧
    (Reader.unknownKey wC7).indent ≤ wC7.expected_indent :=
  ⟨by decide,
   ((claim_C7 wC7 rfl (by decide)).2 (by decide)).1,
   ((claim_C7 wC7 rfl (by decide)).2 (by decide)).2.2.1⟩

-- ----------------------------------------------------------------- C9

/-- C9: in leniency mode `unknownKey` is the do/while form: one unconditional
advance before any indentation check, then skipping while the indent exceeds
the expected nesting level — so, unlike the non-leniency path, it consumes
input even when the current line's indent is already below the expected level,
and it records no warnings. -/
theorem claim_C9 (s : Reader) (hig : s.ignore_invalid = true) :
    Reader.unknownKey s = skipDeeper (Reader.moveNext s) ∧
    (Reader.unknownKey s).warnings = s.warnings ∧
    (s.input.eofFlag = false → mu (Reader.unknownKey s) < mu s) := by
  have heq : Reader.unknownKey s = skipDeeper (Reader.moveNext s) := by
    unfold Reader.unknownKey
    rw [if_pos hig]
  refine ⟨heq, ?_, ?_⟩
  · rw [heq]
    unfold skipDeeper
    rw [skipDeeperF_warn_ign _ _ (by rw [moveNext_ignore]; exact hig), moveNext_warn_ign s hig]
  · intro hef
    rw [heq]
    have h1 := moveNext_mu_lt s hef
    have h2 : mu (skipDeeper (Reader.moveNext s)) ≤ mu (Reader.moveNext s) := by
      unfold skipDeeper
      exact skipDeeperF_mu_le _ _
    omega

def c9data : List Char := "a: 1\n".data

def wC9 : Reader := { baseR with ignore_invalid := true, expected_indent := 5,
                                 input := ⟨c9data, false⟩ }

theorem claim_C9_witness :
    wC9.indent < wC9.expected_indent ∧ wC9.input.eofFlag = false ∧
    (Reader.unknownKey wC9).warnings = wC9.warnings ∧
    mu (Reader.unknownKey wC9) < mu wC9 :=
  ⟨by decide, rfl, (claim_C9 wC9 rfl).2.1, (claim_C9 wC9 rfl).2.2 rfl⟩

-- ----------------------------------------------------------------- C2 witness

def lineAB : Str := "\tab".data
def lineCD : Str := "\tcd".data
def lineTerm : Str := "x:".data
def blankLn : Str := []
def wC2data : List Char := "\tab\n\n\tcd\nx:\n".data

def wC2 : Reader := { baseR with state := RState.ENTERED, expected_indent := 1,
                                 input := ⟨wC2data, false⟩ }

theorem claim_C2_witness :
    wC2.value = [] ∧ (Reader.getValue wC2).2 = "ab\n\ncd".data :=
  ⟨rfl, by
    have h := claim_C2 wC2 lineAB [([blankLn], lineCD)] [] lineTerm [] rfl rfl
      (by decide) (by decide) (by decide) (by decide) (by decide) rfl
    exact h.trans (by decide)⟩

end MSE
